import Mathlib

/-!
# Volume recycling operator: reconciliation of released Fibre Channel volumes

A shallow embedding of

* `internal/controller/persistentvolume_controller.go` (`PersistentVolumeReconciler.Reconcile`),
* `internal/utils/utils.go` (`LinuxFCUtil.FindDisk` and its helpers),
* the test double `stub` of `internal/controller/persistentvolume_controller_test.go`.

Everything outside the repository that `Reconcile` talks to (the resource store
client, the `FCUtil` capability, the operating system's exclusive open) is an
oracle over an abstract world state `σ`: a call takes the current world and
returns its answer together with the next world, so an oracle may answer the same
question differently on a later call. Every oracle call is recorded, with its
answer, in a trace. Log lines (`rLog.Info`, `klog.Infof`) are not modelled.
-/

namespace VolumeRecycling

/-! ## Kubernetes objects: the fields that `Reconcile` reads or writes -/

/-- Phase of a persistent volume; a string type in the Kubernetes API. -/
abbrev PersistentVolumePhase := String

/-- The Go constant `v1.VolumeReleased`. -/
def VolumeReleased : PersistentVolumePhase := "Released"

/-- The Go constant `v1.VolumeAvailable`. -/
def VolumeAvailable : PersistentVolumePhase := "Available"

/-- The claim binding `pv.Spec.ClaimRef` points to (an object reference). -/
structure ObjectReference where
  Namespace : String
  Name : String
deriving DecidableEq, Repr

/-- The Go struct `v1.FCVolumeSource`; `Lun` is a pointer (`*int32`) there, hence optional.
The value is only printed in decimal, so the bound of `int32` plays no part. -/
structure FCVolumeSource where
  TargetWWNs : List String
  Lun : Option Int
  FSType : String
  ReadOnly : Bool
  WWIDs : List String
deriving DecidableEq, Repr

/-- The part of `v1.PersistentVolumeSpec` used here; `FC` and `ClaimRef` are pointers. -/
structure PersistentVolumeSpec where
  FC : Option FCVolumeSource
  ClaimRef : Option ObjectReference
deriving DecidableEq, Repr

/-- The Go struct `v1.PersistentVolumeStatus`. -/
structure PersistentVolumeStatus where
  Phase : PersistentVolumePhase
  Message : String
  Reason : String
deriving DecidableEq, Repr

/-- The Go struct `v1.PersistentVolume`. -/
structure PersistentVolume where
  Name : String
  Spec : PersistentVolumeSpec
  Status : PersistentVolumeStatus
deriving DecidableEq, Repr

/-! ## Errors, results, durations -/

/-- A Go `error` value that is not nil; `notFound` is what `apierrors.IsNotFound` reports. -/
structure Error where
  notFound : Bool
  msg : String
deriving DecidableEq, Repr

/-- The controller-runtime helper `client.IgnoreNotFound`: nil for a not-found error,
the error itself otherwise. -/
def IgnoreNotFound (err : Error) : Option Error :=
  if err.notFound then none else some err

/-- One second as a `time.Duration` (nanoseconds). -/
def Second : Int := 1000000000

/-- One minute as a `time.Duration`. -/
def Minute : Int := 60 * Second

/-- One hour as a `time.Duration`. -/
def Hour : Int := 60 * Minute

/-- The Go struct `ctrl.Result`. -/
structure Result where
  Requeue : Bool
  RequeueAfter : Int
deriving DecidableEq, Repr

/-- The zero value `ctrl.Result{}`. -/
def Result.empty : Result := ⟨false, 0⟩

/-- Answer of a store call: the error, or the object as the server returned it. -/
inductive Reply where
  | failed (err : Error)
  | stored (obj : PersistentVolume)
deriving DecidableEq, Repr

/-- The Go function `strconv.Itoa` on the value `int(*pv.Spec.FC.Lun)`. -/
def Itoa (i : Int) : String := toString i

/-! ## Oracles and the trace -/

/-- The Go interface `utils.FCUtil`. -/
structure FCUtil (σ : Type) where
  WipeDisk : String → String → σ → Option Error × σ
  FindDisk : String → String → σ → (String × String) × σ

/-- The calls `Reconcile` makes on the embedded `client.Client`:
`Get`, `Patch(obj, MergeFrom(base))` and `Status().Patch(obj, MergeFrom(base))`. -/
structure Client (σ : Type) where
  Get : String → σ → Reply × σ
  Patch : PersistentVolume → PersistentVolume → σ → Reply × σ
  StatusPatch : PersistentVolume → PersistentVolume → σ → Reply × σ

/-- The operating system surface used for the idleness probe:
`os.OpenFile(device, os.O_WRONLY|os.O_EXCL, 0)` and `fp.Close()`. -/
structure HostDevices (σ : Type) where
  OpenFile : String → σ → Option Error × σ
  Close : String → σ → Option Error × σ

/-- The Go struct `PersistentVolumeReconciler` (the scheme is not used by `Reconcile`). -/
structure PersistentVolumeReconciler (σ : Type) where
  client : Client σ
  FcUtils : FCUtil σ
  DeniedDevices : List String

/-- One recorded oracle call together with its answer. -/
inductive Event where
  | Get (req : String) (res : Reply)
  | FindDisk (wwn lun disk dm : String)
  | OpenFile (name : String) (err : Option Error)
  | Close (name : String) (err : Option Error)
  | WipeDisk (path filesystem : String) (err : Option Error)
  | Patch (obj base : PersistentVolume) (res : Reply)
  | StatusPatch (obj base : PersistentVolume) (res : Reply)
deriving DecidableEq, Repr

/-- How a call of `Reconcile` ends: it returns `(ctrl.Result, error)`, or it panics
(dereferencing a nil `Lun`). -/
inductive Outcome where
  | returned (res : Result) (err : Option Error)
  | panicked
deriving DecidableEq, Repr

/-- A finished run: how it ended, the oracle calls in order, the world afterwards. -/
structure Run (σ : Type) where
  outcome : Outcome
  trace : List Event
  final : σ

/-! ## `Reconcile` -/

/-- The loop of `Reconcile` over `pv.Spec.FC.TargetWWNs` (source lines 68 to 76):
`device` starts empty; each iteration dereferences `Lun` (a nil pointer panics, which is
`none` here), calls `FindDisk(wwn, Itoa(lun))`, drops the first returned path, and stops
at the first non-empty second path. Returns the device, the calls made, the world. -/
def scanTargetWWNs {σ : Type} (fu : FCUtil σ) (lun : Option Int) :
    List String → σ → Option String × List Event × σ
  | [], s => (some "", [], s)
  | wwn :: rest, s =>
    match lun with
    | none => (none, [], s)
    | some l =>
      let found := fu.FindDisk wwn (Itoa l) s
      if found.1.2 ≠ "" then
        (some found.1.2, [Event.FindDisk wwn (Itoa l) found.1.1 found.1.2], found.2)
      else
        let later := scanTargetWWNs fu lun rest found.2
        (later.1, Event.FindDisk wwn (Itoa l) found.1.1 found.1.2 :: later.2.1, later.2.2)

/-- The Go method `PersistentVolumeReconciler.Reconcile`. -/
def Reconcile {σ : Type} (r : PersistentVolumeReconciler σ) (host : HostDevices σ)
    (req : String) (s0 : σ) : Run σ :=
  let got := r.client.Get req s0
  match got.1 with
  | .failed err => ⟨.returned Result.empty (IgnoreNotFound err), [.Get req got.1], got.2⟩
  | .stored pv =>
    if pv.Status.Phase = VolumeReleased then
      match pv.Spec.FC with
      | none => ⟨.returned Result.empty none, [.Get req got.1], got.2⟩
      | some fc =>
        let scan := scanTargetWWNs r.FcUtils fc.Lun fc.TargetWWNs got.2
        match scan.1 with
        | none => ⟨.panicked, .Get req got.1 :: scan.2.1, scan.2.2⟩
        | some device =>
          if device = "" then
            ⟨.returned ⟨true, 60 * Second⟩ none, .Get req got.1 :: scan.2.1, scan.2.2⟩
          else
            let opened := host.OpenFile device scan.2.2
            match opened.1 with
            | some _ =>
              ⟨.returned ⟨true, 60 * Second⟩ none,
                .Get req got.1 :: scan.2.1 ++ [.OpenFile device opened.1], opened.2⟩
            | none =>
              let closed := host.Close device opened.2
              match closed.1 with
              | some _ =>
                ⟨.returned ⟨true, 60 * Second⟩ none,
                  .Get req got.1 :: scan.2.1 ++
                    [.OpenFile device opened.1, .Close device closed.1], closed.2⟩
              | none =>
                if device ∈ r.DeniedDevices then
                  ⟨.returned ⟨true, 60 * Hour⟩ none,
                    .Get req got.1 :: scan.2.1 ++
                      [.OpenFile device opened.1, .Close device closed.1], closed.2⟩
                else
                  let wiped := r.FcUtils.WipeDisk device fc.FSType closed.2
                  match wiped.1 with
                  | some _ =>
                    ⟨.returned ⟨true, 15 * Minute⟩ none,
                      .Get req got.1 :: scan.2.1 ++
                        [.OpenFile device opened.1, .Close device closed.1,
                          .WipeDisk device fc.FSType wiped.1], wiped.2⟩
                  | none =>
                    let pv1 : PersistentVolume :=
                      { pv with Spec := { pv.Spec with ClaimRef := none } }
                    let patched := r.client.Patch pv1 pv wiped.2
                    match patched.1 with
                    | .failed err =>
                      ⟨.returned ⟨true, 0⟩ (some err),
                        .Get req got.1 :: scan.2.1 ++
                          [.OpenFile device opened.1, .Close device closed.1,
                            .WipeDisk device fc.FSType wiped.1,
                            .Patch pv1 pv patched.1], patched.2⟩
                    | .stored pv2 =>
                      let pv3 : PersistentVolume :=
                        { pv2 with Status := ⟨VolumeAvailable, "Wiped by operator", ""⟩ }
                      let statused := r.client.StatusPatch pv3 pv2 patched.2
                      match statused.1 with
                      | .failed err =>
                        ⟨.returned ⟨true, 0⟩ (some err),
                          .Get req got.1 :: scan.2.1 ++
                            [.OpenFile device opened.1, .Close device closed.1,
                              .WipeDisk device fc.FSType wiped.1,
                              .Patch pv1 pv patched.1,
                              .StatusPatch pv3 pv2 statused.1], statused.2⟩
                      | .stored _ =>
                        ⟨.returned Result.empty none,
                          .Get req got.1 :: scan.2.1 ++
                            [.OpenFile device opened.1, .Close device closed.1,
                              .WipeDisk device fc.FSType wiped.1,
                              .Patch pv1 pv patched.1,
                              .StatusPatch pv3 pv2 statused.1], statused.2⟩
    else
      ⟨.returned Result.empty none, [.Get req got.1], got.2⟩

/-! ## Reading a trace -/

/-- Whether the event is a call of `FindDisk`. -/
def Event.isFindDisk : Event → Bool
  | .FindDisk _ _ _ _ => true
  | _ => false

/-- Whether the event is the exclusive open of a device (or the close that follows it). -/
def Event.isOpenFile : Event → Bool
  | .OpenFile _ _ => true
  | .Close _ _ => true
  | _ => false

/-- Whether the event is a call of `WipeDisk`. -/
def Event.isWipeDisk : Event → Bool
  | .WipeDisk _ _ _ => true
  | _ => false

/-- Whether the event is a patch of the resource (of its spec or of its status). -/
def Event.isPatch : Event → Bool
  | .Patch _ _ _ => true
  | .StatusPatch _ _ _ => true
  | _ => false

/-- The device `Reconcile` selects (source lines 53 to 76): the resource is fetched, its
phase is Released, it has FC addressing, and the loop over the WWNs ends without a panic.
The selected device may be the empty string (nothing found). -/
def selectedDevice {σ : Type} (r : PersistentVolumeReconciler σ) (req : String) (s0 : σ) :
    Option String :=
  match (r.client.Get req s0).1 with
  | .failed _ => none
  | .stored pv =>
    if pv.Status.Phase = VolumeReleased then
      match pv.Spec.FC with
      | none => none
      | some fc => (scanTargetWWNs r.FcUtils fc.Lun fc.TargetWWNs (r.client.Get req s0).2).1
    else none

/-- Whether the event is an answered `FindDisk(wwn, lun)` call whose second path (the
aggregate path) is empty. -/
def quietCall (lun : String) (wwn : String) : Event → Bool
  | .FindDisk w l _ dm => decide (w = wwn) && decide (l = lun) && decide (dm = "")
  | _ => false

/-- Whether the events are `FindDisk(w, lun)` calls, one for each of the WWNs and in their
order, each answered with an empty aggregate path. -/
def quietCalls (lun : String) : List String → List Event → Bool
  | [], [] => true
  | w :: ws, e :: es => quietCall lun w e && quietCalls lun ws es
  | _, _ => false

/-! ## Asking the resolver in list order

What it means to call `FindDisk` for the WWNs of a list, one after the other: each call
is made in the world the call before it left. These say what the loop of `Reconcile` is
compared with; they are not taken from its code. -/

/-- The world after `FindDisk(w, lun)` was called for each WWN of the list, in order,
starting in world `s`. -/
def worldAfter {σ : Type} (fu : FCUtil σ) (lun : String) : List String → σ → σ
  | [], s => s
  | w :: ws, s => worldAfter fu lun ws (fu.FindDisk w lun s).2

/-- The calls `FindDisk(w, lun)` for each WWN of the list, in order, starting in world `s`,
each recorded with the answer the resolver gives in the world of the call. -/
def answeredCalls {σ : Type} (fu : FCUtil σ) (lun : String) : List String → σ → List Event
  | [], _ => []
  | w :: ws, s =>
    Event.FindDisk w lun (fu.FindDisk w lun s).1.1 (fu.FindDisk w lun s).1.2 ::
      answeredCalls fu lun ws (fu.FindDisk w lun s).2

/-- Whether the resolver, asked for each WWN of the list in order starting in world `s`,
answers every call with an empty aggregate path. -/
def allQuiet {σ : Type} (fu : FCUtil σ) (lun : String) : List String → σ → Bool
  | [], _ => true
  | w :: ws, s =>
    decide ((fu.FindDisk w lun s).1.2 = "") && allQuiet fu lun ws (fu.FindDisk w lun s).2

/-! ## `LinuxFCUtil.FindDisk` and the regular expressions it builds

Go's `regexp` package is modelled on a fragment of its syntax: literal characters, `.`,
`*`, `^`, `$`, grouping with `(` and `)`, and alternation with `|`. A pattern that uses
any other metacharacter (backslash, `+`, `?`, brackets, braces) is reported as
`outsideFragment` and not interpreted. Go rejects an expression whose syntax tree is higher
than 1000 nodes or that is too large; a pattern with groups nested deeper than
`maxGroupDepth`, or longer than `maxPatternLength` characters, is reported as
`outsideFragment` too, and below these bounds Go's limits are not reached: a group adds at
most four levels to the tree (alternation, concatenation, repetition, capture). -/

/-- Deepest nesting of groups the model interprets. -/
def maxGroupDepth : Nat := 200

/-- Longest pattern, in characters, the model interprets. -/
def maxPatternLength : Nat := 100000

/-- Parsed regular expression of the fragment. -/
inductive Regex where
  | lit (c : Char)
  | anyNotNL
  | beginText
  | endText
  | star (r : Regex)
  | concat (rs : List Regex)
  | alternate (rs : List Regex)
deriving Repr

/-- One level of the stack the pattern reader works on: the finished alternatives of the
group being read, the items of its current alternative (both latest first), and whether
the last token was a repetition operator. -/
structure Frame where
  alts : List Regex
  cur : List Regex
  starred : Bool

/-- The alternation a finished group stands for. -/
def Frame.close (f : Frame) : Regex :=
  Regex.alternate ((Regex.concat f.cur.reverse :: f.alts).reverse)

/-- Result of `regexp.Compile` in the model. -/
inductive Compiled where
  | ok (re : Regex)
  | syntaxError
  | outsideFragment
deriving Repr

/-- Reads a pattern left to right. Syntax errors, as in Go: a `)` without an open group,
a group left open at the end, `*` with nothing to repeat (at the start of the pattern, of a
group or of an alternative), and `*` directly after `*`. A group opened inside
`maxGroupDepth` open groups ends the reading with `outsideFragment`. -/
def parseLoop : List Char → Frame → List Frame → Compiled
  | [], f, [] => .ok f.close
  | [], _, _ :: _ => .syntaxError
  | c :: cs, f, outer =>
    if c = '(' then
      if maxGroupDepth ≤ outer.length then .outsideFragment
      else parseLoop cs ⟨[], [], false⟩ (f :: outer)
    else if c = ')' then
      match outer with
      | [] => .syntaxError
      | g :: outer1 => parseLoop cs ⟨g.alts, f.close :: g.cur, false⟩ outer1
    else if c = '|' then
      parseLoop cs ⟨Regex.concat f.cur.reverse :: f.alts, [], false⟩ outer
    else if c = '*' then
      match f.cur with
      | [] => .syntaxError
      | x :: xs =>
        if f.starred then .syntaxError
        else parseLoop cs ⟨f.alts, Regex.star x :: xs, true⟩ outer
    else if c = '.' then parseLoop cs ⟨f.alts, Regex.anyNotNL :: f.cur, false⟩ outer
    else if c = '^' then parseLoop cs ⟨f.alts, Regex.beginText :: f.cur, false⟩ outer
    else if c = '$' then parseLoop cs ⟨f.alts, Regex.endText :: f.cur, false⟩ outer
    else if c = '\\' ∨ c = '+' ∨ c = '?' ∨ c = '[' ∨ c = ']' ∨ c = '\x7b' ∨ c = '\x7d' then
      .outsideFragment
    else parseLoop cs ⟨f.alts, Regex.lit c :: f.cur, false⟩ outer

/-- The Go function `regexp.Compile` on the fragment. -/
def Compile (expr : String) : Compiled :=
  if maxPatternLength < expr.data.length then .outsideFragment
  else parseLoop expr.data ⟨[], [], false⟩ []

/-- All the texts that can remain after zero or more non-empty matches of `f`,
starting from `rest`; `rest.length` rounds are enough. -/
def starLoop (f : List Char → List (List Char)) : Nat → List Char → List (List Char)
  | 0, rest => [rest]
  | k + 1, rest =>
    rest :: ((f rest).filter (fun t => t.length < rest.length)).flatMap (starLoop f k)

mutual
/-- All the texts that can remain after the expression matched a prefix of `rest`, where
`rest` is a suffix of a text of length `n`. `.` does not match a newline, `^` and `$` hold
only at the beginning and at the end of the text (Go's default flags). -/
def ends (n : Nat) : Regex → List Char → List (List Char)
  | .lit c, rest =>
    match rest with
    | x :: t => if x = c then [t] else []
    | [] => []
  | .anyNotNL, rest =>
    match rest with
    | x :: t => if x = '\n' then [] else [t]
    | [] => []
  | .beginText, rest => if rest.length = n then [rest] else []
  | .endText, rest => if rest.isEmpty then [rest] else []
  | .star r, rest => starLoop (ends n r) rest.length rest
  | .concat rs, rest => endsSeq n rs rest
  | .alternate rs, rest => endsAlt n rs rest
/-- The items of a concatenation matched one after the other. -/
def endsSeq (n : Nat) : List Regex → List Char → List (List Char)
  | [], rest => [rest]
  | r :: rs, rest => (ends n r rest).flatMap (endsSeq n rs)
/-- Any one of the alternatives matched. -/
def endsAlt (n : Nat) : List Regex → List Char → List (List Char)
  | [], _ => []
  | r :: rs, rest => ends n r rest ++ endsAlt n rs rest
end

/-- The Go method `(*Regexp).MatchString`: the expression matches somewhere in `s`. -/
def MatchString (re : Regex) (s : String) : Bool :=
  s.data.tails.any (fun t => !(ends s.data.length re t).isEmpty)

/-- The host's files as `FindDisk` sees them: `ioutil.ReadDir` (entry names, or an error),
`filepath.EvalSymlinks` (the resolved path, or an error), `os.Lstat` (whether it succeeds). -/
structure HostFiles where
  ReadDir : String → Option (List String)
  EvalSymlinks : String → Option String
  Lstat : String → Bool

/-- The Go constant `byPath`. -/
def byPath : String := "/hostdev/disk/by-path/"

/-- The Go function `strings.HasPrefix`. -/
def HasPrefix (s pre : String) : Bool := pre.data.isPrefixOf s.data

/-- Pieces of a text between occurrences of the separator; `cur` is the piece being read. -/
def splitChars (sep : Char) : List Char → List Char → List String
  | [], cur => [String.mk cur.reverse]
  | c :: cs, cur =>
    if c = sep then String.mk cur.reverse :: splitChars sep cs []
    else splitChars sep cs (c :: cur)

/-- The Go function `strings.Split` for a separator of one character. -/
def Split (s : String) (sep : Char) : List String := splitChars sep s.data []

/-- The Go method `LinuxFCUtil.findDeviceForPath`; `none` is a returned error. -/
def findDeviceForPath (fs : HostFiles) (path : String) : Option String :=
  match fs.EvalSymlinks path with
  | none => none
  | some devicePath =>
    match Split devicePath '/' with
    | [_, p1, p2] => if HasPrefix p1 "hostdev" then some p2 else none
    | _ => none

/-- The loop of `findMultipathDeviceForDevice` over the entries of `/sys/block/`. -/
def findSlaveHolder (fs : HostFiles) (disk : String) : List String → String
  | [] => ""
  | name :: rest =>
    if HasPrefix name "dm-" ∧ fs.Lstat ("/sys/block/" ++ name ++ "/slaves/" ++ disk) then
      "/hostdev/" ++ name
    else findSlaveHolder fs disk rest

/-- The Go method `LinuxFCUtil.findMultipathDeviceForDevice`. -/
def findMultipathDeviceForDevice (fs : HostFiles) (device : String) : String :=
  if HasPrefix device "/hostdev/dm-" then device
  else
    match findDeviceForPath fs device with
    | none => ""
    | some disk =>
      match fs.ReadDir "/sys/block/" with
      | some dirs => findSlaveHolder fs disk dirs
      | none => ""

/-- The loop of `FindDisk` over the entries of the by-path directory. -/
def findDiskLoop (fs : HostFiles) (re : Regex) : List String → String × String
  | [] => ("", "")
  | name :: rest =>
    if MatchString re name then
      match fs.EvalSymlinks (byPath ++ name) with
      | some disk => (disk, findMultipathDeviceForDevice fs disk)
      | none => findDiskLoop fs re rest
    else findDiskLoop fs re rest

/-- How a call of `LinuxFCUtil.FindDisk` ends: it returns `(disk, dm)`, or
`regexp.MustCompile` panics, or the pattern is outside the modelled fragment. -/
inductive FindDiskResult where
  | returned (disk dm : String)
  | panicked
  | outsideFragment
deriving DecidableEq, Repr

/-- The Go method `LinuxFCUtil.FindDisk`. -/
def FindDisk (fs : HostFiles) (wwn lun : String) : FindDiskResult :=
  let fcPathExp := "^(pci-.*-fc|fc)-0x" ++ wwn ++ "-lun-" ++ lun ++ "$"
  match Compile fcPathExp with
  | .syntaxError => .panicked
  | .outsideFragment => .outsideFragment
  | .ok re =>
    match fs.ReadDir byPath with
    | some dirs =>
      let found := findDiskLoop fs re dirs
      .returned found.1 found.2
    | none => .returned "" ""

/-- The name `FindDisk` is documented to look for without a PCI part:
`fc-0x<wwn>-lun-<lun>`. -/
def fcEntryName (wwn lun : String) : String := "fc-0x" ++ wwn ++ "-lun-" ++ lun

/-- The name `FindDisk` is documented to look for with a PCI part `s`:
`pci-<s>-fc-0x<wwn>-lun-<lun>`. -/
def pciEntryName (s wwn lun : String) : String :=
  "pci-" ++ s ++ "-fc-0x" ++ wwn ++ "-lun-" ++ lun

/-! ## The test double and sample worlds

The sample worlds have no state of their own (`σ = Unit`). -/

/-- The test double `stub` of the controller test. -/
def stub {σ : Type} : FCUtil σ where
  FindDisk := fun wwn lun s =>
    if wwn = "wwnB" ∧ lun = "3" then (("disk", "/dev/TheDisk"), s) else (("", ""), s)
  WipeDisk := fun path filesystem s =>
    if filesystem = "ext4" ∧ path = "/dev/TheDisk" then (none, s)
    else (some ⟨false, "incorrect call to wipe disk " ++ path ++ " " ++ filesystem⟩, s)

/-- The FC addressing of the resource the controller test creates. -/
def testFC : FCVolumeSource := ⟨["wwnA", "wwnB"], some 3, "ext4", false, []⟩

/-- The resource of the controller test, in the given phase, bound to a claim. -/
def testPV (phase : PersistentVolumePhase) (fc : Option FCVolumeSource) : PersistentVolume :=
  ⟨"test-resource", ⟨fc, some ⟨"default", "claim"⟩⟩, ⟨phase, "", ""⟩⟩

/-- A store holding one resource; every patch succeeds and returns the object sent. -/
def storeOf (pv : PersistentVolume) : Client Unit where
  Get := fun _ s => (.stored pv, s)
  Patch := fun obj _ s => (.stored obj, s)
  StatusPatch := fun obj _ s => (.stored obj, s)

/-- A host on which every device can be opened exclusively and closed. -/
def idleHost : HostDevices Unit where
  OpenFile := fun _ s => (none, s)
  Close := fun _ s => (none, s)

/-- A host on which every exclusive open fails (device busy, or no such device). -/
def busyHost : HostDevices Unit where
  OpenFile := fun _ s => (some ⟨false, "device or resource busy"⟩, s)
  Close := fun _ s => (none, s)

/-- A wiper that always fails, behind the resolver of the test double. -/
def failingWiper : FCUtil Unit where
  FindDisk := stub.FindDisk
  WipeDisk := fun _ _ s => (some ⟨false, "exit status 1"⟩, s)

/-- A host with one FC disk `sdb` and no multipath device. -/
def plainHost : HostFiles where
  ReadDir := fun d =>
    if d = byPath then some ["fc-0x500a-lun-0"]
    else if d = "/sys/block/" then some ["sdb"] else none
  EvalSymlinks := fun p =>
    if p = byPath ++ "fc-0x500a-lun-0" then some "/hostdev/sdb"
    else if p = "/hostdev/sdb" then some "/hostdev/sdb" else none
  Lstat := fun _ => false

/-- A store over a counter of writes, holding one resource: it accepts the first patch in
world 0 and the status patch in world 1, each returning the object sent, and rejects every
other write as stale. -/
def onceStore (pv : PersistentVolume) : Client Nat where
  Get := fun _ s => (.stored pv, s)
  Patch := fun obj _ s =>
    if s = 0 then (.stored obj, 1) else (.failed ⟨false, "conflict"⟩, s)
  StatusPatch := fun obj _ s =>
    if s = 1 then (.stored obj, 2) else (.failed ⟨false, "conflict"⟩, s)

/-- A host, over the same counter, on which a device can be opened exclusively only in
world 0. -/
def idleOnceHost : HostDevices Nat where
  OpenFile := fun _ s => if s = 0 then (none, s) else (some ⟨false, "busy"⟩, s)
  Close := fun _ s => (none, s)

/-- A resolver that answers like `FindDisk` on `plainHost`: a raw device for WWN `500a`,
LUN 0, and no aggregate device. -/
def rawOnlyFor500a : FCUtil Unit where
  FindDisk := fun wwn lun s =>
    if wwn = "500a" ∧ lun = "0" then (("/hostdev/sdb", ""), s) else (("", ""), s)
  WipeDisk := fun _ _ s => (none, s)

/-- The reconciler of the controller test over a store holding the test resource in the
given phase, with the given denylist. -/
def testReconciler (phase : PersistentVolumePhase) (denied : List String) :
    PersistentVolumeReconciler Unit :=
  ⟨storeOf (testPV phase (some testFC)), stub, denied⟩

/-! ## The shape of a reconciliation pass -/

/-- The resource as `Reconcile` sends it in the first patch: the claim binding cleared. -/
def clearClaim (pv : PersistentVolume) : PersistentVolume :=
  { pv with Spec := { pv.Spec with ClaimRef := none } }

/-- The resource as `Reconcile` sends it in the status patch: phase Available. -/
def markAvailable (pv : PersistentVolume) : PersistentVolume :=
  { pv with Status := ⟨VolumeAvailable, "Wiped by operator", ""⟩ }

/-- The ways a pass of `Reconcile` can go, one constructor for each `return` of the source
(and one for the panic), with the trace and the outcome of each. -/
inductive Pass {σ : Type} (r : PersistentVolumeReconciler σ) (req : String) (s0 : σ) :
    List Event → Outcome → Prop
  | getFailed (err : Error) (hget : (r.client.Get req s0).1 = .failed err) :
      Pass r req s0 [.Get req (.failed err)] (.returned Result.empty (IgnoreNotFound err))
  | ignored (pv : PersistentVolume) (hget : (r.client.Get req s0).1 = .stored pv)
      (h : pv.Status.Phase ≠ VolumeReleased ∨ pv.Spec.FC = none) :
      Pass r req s0 [.Get req (.stored pv)] (.returned Result.empty none)
  | nilLun (pv : PersistentVolume) (fc : FCVolumeSource)
      (hget : (r.client.Get req s0).1 = .stored pv)
      (hphase : pv.Status.Phase = VolumeReleased) (hfc : pv.Spec.FC = some fc)
      (hscan : (scanTargetWWNs r.FcUtils fc.Lun fc.TargetWWNs (r.client.Get req s0).2).1 = none) :
      Pass r req s0
        (.Get req (.stored pv) ::
          (scanTargetWWNs r.FcUtils fc.Lun fc.TargetWWNs (r.client.Get req s0).2).2.1)
        .panicked
  | notFound (pv : PersistentVolume) (fc : FCVolumeSource)
      (hget : (r.client.Get req s0).1 = .stored pv)
      (hphase : pv.Status.Phase = VolumeReleased) (hfc : pv.Spec.FC = some fc)
      (hscan : (scanTargetWWNs r.FcUtils fc.Lun fc.TargetWWNs (r.client.Get req s0).2).1
        = some "") :
      Pass r req s0
        (.Get req (.stored pv) ::
          (scanTargetWWNs r.FcUtils fc.Lun fc.TargetWWNs (r.client.Get req s0).2).2.1)
        (.returned ⟨true, 60 * Second⟩ none)
  | found (pv : PersistentVolume) (fc : FCVolumeSource) (device : String)
      (tail : List Event) (out : Outcome)
      (hget : (r.client.Get req s0).1 = .stored pv)
      (hphase : pv.Status.Phase = VolumeReleased) (hfc : pv.Spec.FC = some fc)
      (hscan : (scanTargetWWNs r.FcUtils fc.Lun fc.TargetWWNs (r.client.Get req s0).2).1
        = some device)
      (hne : device ≠ "")
      (htail :
        (∃ e, tail = [.OpenFile device (some e)] ∧ out = .returned ⟨true, 60 * Second⟩ none) ∨
        (∃ e, tail = [.OpenFile device none, .Close device (some e)] ∧
          out = .returned ⟨true, 60 * Second⟩ none) ∨
        (device ∈ r.DeniedDevices ∧ tail = [.OpenFile device none, .Close device none] ∧
          out = .returned ⟨true, 60 * Hour⟩ none) ∨
        (∃ e, device ∉ r.DeniedDevices ∧
          tail = [.OpenFile device none, .Close device none,
            .WipeDisk device fc.FSType (some e)] ∧
          out = .returned ⟨true, 15 * Minute⟩ none) ∨
        (∃ e, device ∉ r.DeniedDevices ∧
          tail = [.OpenFile device none, .Close device none, .WipeDisk device fc.FSType none,
            .Patch (clearClaim pv) pv (.failed e)] ∧
          out = .returned ⟨true, 0⟩ (some e)) ∨
        (∃ pv2 e, device ∉ r.DeniedDevices ∧
          tail = [.OpenFile device none, .Close device none, .WipeDisk device fc.FSType none,
            .Patch (clearClaim pv) pv (.stored pv2),
            .StatusPatch (markAvailable pv2) pv2 (.failed e)] ∧
          out = .returned ⟨true, 0⟩ (some e)) ∨
        (∃ pv2 pv4, device ∉ r.DeniedDevices ∧
          tail = [.OpenFile device none, .Close device none, .WipeDisk device fc.FSType none,
            .Patch (clearClaim pv) pv (.stored pv2),
            .StatusPatch (markAvailable pv2) pv2 (.stored pv4)] ∧
          out = .returned Result.empty none)) :
      Pass r req s0
        (.Get req (.stored pv) ::
          (scanTargetWWNs r.FcUtils fc.Lun fc.TargetWWNs (r.client.Get req s0).2).2.1 ++ tail)
        out

/-! ## Lemmas on the loop over the WWNs -/

/-- The loop over the WWNs makes `FindDisk` calls only. -/
theorem scan_events_findDisk {σ : Type} (fu : FCUtil σ) (lun : Option Int) (ws : List String)
    (s : σ) : ∀ e ∈ (scanTargetWWNs fu lun ws s).2.1, e.isFindDisk = true := by
  induction ws generalizing s with
  | nil => simp [scanTargetWWNs]
  | cons w ws ih =>
    cases lun with
    | none => simp [scanTargetWWNs]
    | some l =>
      simp only [scanTargetWWNs]
      split
      · simp [Event.isFindDisk]
      · intro e he
        simp only [List.mem_cons] at he
        rcases he with rfl | he
        · rfl
        · exact ih _ e he

/-- Every run of `Reconcile` has one of the shapes of `Pass`. -/
theorem reconcile_pass {σ : Type} (r : PersistentVolumeReconciler σ) (host : HostDevices σ)
    (req : String) (s0 : σ) :
    Pass r req s0 (Reconcile r host req s0).trace (Reconcile r host req s0).outcome := by
  unfold Reconcile
  simp only []
  split
  · next err hget => simp only [hget]; exact Pass.getFailed err hget
  · next pv hget =>
    simp only [hget]
    split
    · next hphase =>
      split
      · next hfc => exact Pass.ignored pv hget (Or.inr hfc)
      · next fc hfc =>
        split
        · next hscan => exact Pass.nilLun pv fc hget hphase hfc hscan
        · next device hscan =>
          split
          · next hempty =>
            subst hempty
            exact Pass.notFound pv fc hget hphase hfc hscan
          · next hne =>
            split
            · next e hopen =>
              simp only [hopen]
              exact Pass.found pv fc device _ _ hget hphase hfc hscan hne (Or.inl ⟨e, rfl, rfl⟩)
            · next hopen =>
              simp only [hopen]
              split
              · next e hclose =>
                simp only [hclose]
                exact Pass.found pv fc device _ _ hget hphase hfc hscan hne
                  (Or.inr (Or.inl ⟨e, rfl, rfl⟩))
              · next hclose =>
                simp only [hclose]
                split
                · next hden =>
                  exact Pass.found pv fc device _ _ hget hphase hfc hscan hne
                    (Or.inr (Or.inr (Or.inl ⟨hden, rfl, rfl⟩)))
                · next hden =>
                  split
                  · next e hwipe =>
                    simp only [hwipe]
                    exact Pass.found pv fc device _ _ hget hphase hfc hscan hne
                      (Or.inr (Or.inr (Or.inr (Or.inl ⟨e, hden, rfl, rfl⟩))))
                  · next hwipe =>
                    simp only [hwipe]
                    split
                    · next e hpatch =>
                      simp only [hpatch]
                      exact Pass.found pv fc device _ _ hget hphase hfc hscan hne
                        (Or.inr (Or.inr (Or.inr (Or.inr (Or.inl ⟨e, hden, rfl, rfl⟩)))))
                    · next pv2 hpatch =>
                      simp only [hpatch]
                      split
                      · next e hstatus =>
                        simp only [hstatus]
                        exact Pass.found pv fc device _ _ hget hphase hfc hscan hne
                          (Or.inr (Or.inr (Or.inr (Or.inr (Or.inr
                            (Or.inl ⟨pv2, e, hden, rfl, rfl⟩))))))
                      · next pv4 hstatus =>
                        simp only [hstatus]
                        exact Pass.found pv fc device _ _ hget hphase hfc hscan hne
                          (Or.inr (Or.inr (Or.inr (Or.inr (Or.inr
                            (Or.inr ⟨pv2, pv4, hden, rfl, rfl⟩))))))
    · next hphase => exact Pass.ignored pv hget (Or.inl hphase)

/-! ## Lemmas on lists of events -/

theorem findDisk_not_other {e : Event} (h : e.isFindDisk = true) :
    e.isOpenFile = false ∧ e.isWipeDisk = false ∧ e.isPatch = false := by
  cases e <;> simp_all [Event.isFindDisk, Event.isOpenFile, Event.isWipeDisk, Event.isPatch]

/-- A list has at most one decomposition around its only element that satisfies `p`. -/
theorem split_unique {α : Type} (p : α → Bool) :
    ∀ (a b pre post : List α) (e f : α), (∀ x ∈ a, p x = false) → (∀ x ∈ b, p x = false) →
      p e = true → a ++ f :: b = pre ++ e :: post → pre = a ∧ e = f ∧ post = b := by
  intro a
  induction a with
  | nil =>
    intro b pre post e f _ hb he h
    cases pre with
    | nil => simp at h; exact ⟨rfl, h.1.symm, h.2.symm⟩
    | cons y pre1 =>
      simp at h
      have hmem : e ∈ b := by rw [h.2]; simp
      have := hb e hmem
      simp [he] at this
  | cons x a1 ih =>
    intro b pre post e f ha hb he h
    cases pre with
    | nil =>
      simp at h
      have := ha x (by simp)
      rw [h.1] at this
      simp [he] at this
    | cons y pre1 =>
      simp at h
      obtain ⟨hxy, h2⟩ := h
      have := ih b pre1 post e f (fun z hz => ha z (by simp [hz])) hb he h2
      exact ⟨by rw [hxy, this.1], this.2.1, this.2.2⟩

/-- A list has one decomposition around its first element that satisfies `p`. -/
theorem first_split_unique {α : Type} (p : α → Bool) :
    ∀ (a b pre post : List α) (e f : α), (∀ x ∈ a, p x = false) → p f = true →
      (∀ x ∈ pre, p x = false) → p e = true → a ++ f :: b = pre ++ e :: post →
      pre = a ∧ e = f ∧ post = b := by
  intro a
  induction a with
  | nil =>
    intro b pre post e f _ hf hpre he h
    cases pre with
    | nil => simp at h; exact ⟨rfl, h.1.symm, h.2.symm⟩
    | cons y pre1 =>
      simp at h
      have := hpre y (by simp)
      rw [← h.1] at this
      simp [hf] at this
  | cons x a1 ih =>
    intro b pre post e f ha hf hpre he h
    cases pre with
    | nil =>
      simp at h
      have := ha x (by simp)
      rw [h.1] at this
      simp [he] at this
    | cons y pre1 =>
      simp at h
      obtain ⟨hxy, h2⟩ := h
      have := ih b pre1 post e f (fun z hz => ha z (by simp [hz])) hf
        (fun z hz => hpre z (by simp [hz])) he h2
      exact ⟨by rw [hxy, this.1], this.2.1, this.2.2⟩

/-- The loop over the WWNs, with a LUN: either it stops at the first WWN whose call returns
a non-empty aggregate path, which is the device, after quiet calls for the WWNs before it;
or every WWN gets a quiet call and the device is empty. -/
theorem scan_spec {σ : Type} (fu : FCUtil σ) (l : Int) (ws : List String) (s : σ) :
    (∃ before wwn after quiet disk dm, ws = before ++ wwn :: after ∧ dm ≠ "" ∧
        quietCalls (Itoa l) before quiet = true ∧
        (scanTargetWWNs fu (some l) ws s).2.1 =
          quiet ++ [Event.FindDisk wwn (Itoa l) disk dm] ∧
        (scanTargetWWNs fu (some l) ws s).1 = some dm) ∨
    (quietCalls (Itoa l) ws (scanTargetWWNs fu (some l) ws s).2.1 = true ∧
        (scanTargetWWNs fu (some l) ws s).1 = some "") := by
  induction ws generalizing s with
  | nil => right; simp [scanTargetWWNs, quietCalls]
  | cons w ws ih =>
    simp only [scanTargetWWNs]
    split
    · next hdm =>
      left
      exact ⟨[], w, ws, [], _, _, rfl, hdm, rfl, rfl, rfl⟩
    · next hdm =>
      have hdm2 : (fu.FindDisk w (Itoa l) s).1.2 = "" := by
        by_contra hc; exact hdm hc
      rcases ih (fu.FindDisk w (Itoa l) s).2 with
        ⟨before, wwn, after, quiet, disk, dm, hws, hne, hq, htr, hdev⟩ | ⟨hq, hdev⟩
      · left
        refine ⟨w :: before, wwn, after,
          Event.FindDisk w (Itoa l) (fu.FindDisk w (Itoa l) s).1.1 "" :: quiet, disk, dm,
          by simp [hws], hne, by simp [quietCalls, quietCall, hq], ?_, hdev⟩
        simp [htr, hdm2]
      · right
        exact ⟨by simp [quietCalls, quietCall, hq, hdm2], hdev⟩

/-- The selected device of a Released FC resource is the result of the loop. -/
theorem selectedDevice_eq {σ : Type} (r : PersistentVolumeReconciler σ) (req : String) (s0 : σ)
    (pv : PersistentVolume) (fc : FCVolumeSource)
    (hget : (r.client.Get req s0).1 = .stored pv)
    (hphase : pv.Status.Phase = VolumeReleased) (hfc : pv.Spec.FC = some fc) :
    selectedDevice r req s0 =
      (scanTargetWWNs r.FcUtils fc.Lun fc.TargetWWNs (r.client.Get req s0).2).1 := by
  simp [selectedDevice, hget, hphase, hfc]

theorem mem_pass_trace {σ : Type} (fu : FCUtil σ) (lun : Option Int) (ws : List String)
    (s : σ) (g : Event) (tail : List Event) (x : Event)
    (hx : x ∈ g :: (scanTargetWWNs fu lun ws s).2.1 ++ tail) :
    x = g ∨ x.isFindDisk = true ∨ x ∈ tail := by
  simp only [List.cons_append, List.mem_cons, List.mem_append] at hx
  rcases hx with h | h | h
  · exact Or.inl h
  · exact Or.inr (Or.inl (scan_events_findDisk _ _ _ _ x h))
  · exact Or.inr (Or.inr h)

theorem pass_head_clean {σ : Type} (fu : FCUtil σ) (lun : Option Int) (ws : List String)
    (s : σ) (g : Event) (extra : List Event) (p : Event → Bool) (hg : p g = false)
    (hfd : ∀ e : Event, e.isFindDisk = true → p e = false)
    (hextra : ∀ x ∈ extra, p x = false) :
    ∀ x ∈ g :: (scanTargetWWNs fu lun ws s).2.1 ++ extra, p x = false := by
  intro x hx
  rcases mem_pass_trace fu lun ws s g extra x hx with h | h | h
  · rw [h]; exact hg
  · exact hfd x h
  · exact hextra x h

theorem findDisk_not_wipe (e : Event) (h : e.isFindDisk = true) : e.isWipeDisk = false :=
  (findDisk_not_other h).2.1

theorem findDisk_not_patch (e : Event) (h : e.isFindDisk = true) : e.isPatch = false :=
  (findDisk_not_other h).2.2

/-- A pass whose selected device is on the denylist wipes nothing and patches nothing. -/
theorem pass_denied_clean {σ : Type} (r : PersistentVolumeReconciler σ) (req : String)
    (s0 : σ) (tr : List Event) (out : Outcome) (hp : Pass r req s0 tr out) (device : String)
    (hsel : selectedDevice r req s0 = some device) (hden : device ∈ r.DeniedDevices) :
    ∀ e ∈ tr, e.isWipeDisk = false ∧ e.isPatch = false := by
  cases hp with
  | getFailed err hget => simp [Event.isWipeDisk, Event.isPatch]
  | ignored pv hget h => simp [Event.isWipeDisk, Event.isPatch]
  | nilLun pv fc hget hphase hfc hscan =>
    rw [selectedDevice_eq r req s0 pv fc hget hphase hfc, hscan] at hsel
    cases hsel
  | notFound pv fc hget hphase hfc hscan =>
    intro e he
    simp only [List.mem_cons] at he
    rcases he with rfl | he
    · exact ⟨rfl, rfl⟩
    · exact (findDisk_not_other (scan_events_findDisk _ _ _ _ e he)).2
  | found pv fc dev tail out hget hphase hfc hscan hne htail =>
    rw [selectedDevice_eq r req s0 pv fc hget hphase hfc, hscan] at hsel
    cases hsel
    intro e he
    simp only [List.cons_append, List.mem_cons, List.mem_append] at he
    rcases he with rfl | he | he
    · exact ⟨rfl, rfl⟩
    · exact (findDisk_not_other (scan_events_findDisk _ _ _ _ e he)).2
    · rcases htail with ⟨x, rfl, _⟩ | ⟨x, rfl, _⟩ | ⟨_, rfl, _⟩ | ⟨x, hnd, _, _⟩ |
        ⟨x, hnd, _, _⟩ | ⟨x, y, hnd, _, _⟩ | ⟨x, y, hnd, _, _⟩
      · simp at he; subst he; exact ⟨rfl, rfl⟩
      · simp at he; rcases he with rfl | rfl <;> exact ⟨rfl, rfl⟩
      · simp at he; rcases he with rfl | rfl <;> exact ⟨rfl, rfl⟩
      · exact absurd hden hnd
      · exact absurd hden hnd
      · exact absurd hden hnd
      · exact absurd hden hnd

theorem no_such_event (p : Event → Bool) (tr pre post : List Event) (e : Event)
    (hall : ∀ x ∈ tr, p x = false) (htr : tr = pre ++ e :: post) (he : p e = true) : False := by
  have := hall e (by rw [htr]; simp)
  rw [he] at this
  cases this

/-- In a pass, the first patch comes directly after a successful wipe, and a failed wipe
ends the pass without a patch. -/
theorem pass_patch_after_wipe {σ : Type} (r : PersistentVolumeReconciler σ) (req : String)
    (s0 : σ) (tr : List Event) (out : Outcome) (hp : Pass r req s0 tr out) :
    (∀ (pre post : List Event) (e : Event), tr = pre ++ e :: post → e.isPatch = true →
      (∀ x ∈ pre, x.isPatch = false) →
      (∃ pv, (r.client.Get req s0).1 = .stored pv ∧ pv.Status.Phase = VolumeReleased) ∧
      ∃ before p f, pre = before ++ [Event.WipeDisk p f none]) ∧
    (∀ (p f : String) (err : Error), Event.WipeDisk p f (some err) ∈ tr →
      (∀ x ∈ tr, x.isPatch = false) ∧ out = .returned ⟨true, 15 * Minute⟩ none) := by
  cases hp with
  | getFailed err hget =>
    refine ⟨fun pre post e h he _ => ?_, fun p f err h => ?_⟩
    · exact (no_such_event Event.isPatch _ pre post e (by simp [Event.isPatch]) h he).elim
    · simp at h
  | ignored pv hget hi =>
    refine ⟨fun pre post e h he _ => ?_, fun p f err h => ?_⟩
    · exact (no_such_event Event.isPatch _ pre post e (by simp [Event.isPatch]) h he).elim
    · simp at h
  | nilLun pv fc hget hphase hfc hscan =>
    have hcl := pass_head_clean r.FcUtils fc.Lun fc.TargetWWNs (r.client.Get req s0).2
      (Event.Get req (.stored pv)) [] Event.isPatch rfl findDisk_not_patch (by simp)
    simp only [List.append_nil] at hcl
    refine ⟨fun pre post e h he _ => ?_, fun p f err h => ?_⟩
    · exact (no_such_event Event.isPatch _ pre post e hcl h he).elim
    · simp only [List.mem_cons] at h
      rcases h with h | h
      · cases h
      · have := scan_events_findDisk _ _ _ _ _ h
        simp [Event.isFindDisk] at this
  | notFound pv fc hget hphase hfc hscan =>
    have hcl := pass_head_clean r.FcUtils fc.Lun fc.TargetWWNs (r.client.Get req s0).2
      (Event.Get req (.stored pv)) [] Event.isPatch rfl findDisk_not_patch (by simp)
    simp only [List.append_nil] at hcl
    refine ⟨fun pre post e h he _ => ?_, fun p f err h => ?_⟩
    · exact (no_such_event Event.isPatch _ pre post e hcl h he).elim
    · simp only [List.mem_cons] at h
      rcases h with h | h
      · cases h
      · have := scan_events_findDisk _ _ _ _ _ h
        simp [Event.isFindDisk] at this
  | found pv fc dev tail out hget hphase hfc hscan hne htail =>
    have hcl : ∀ extra : List Event, (∀ x ∈ extra, x.isPatch = false) →
        ∀ x ∈ Event.Get req (.stored pv) ::
          (scanTargetWWNs r.FcUtils fc.Lun fc.TargetWWNs (r.client.Get req s0).2).2.1 ++
            extra, x.isPatch = false :=
      fun extra hx => pass_head_clean r.FcUtils fc.Lun fc.TargetWWNs (r.client.Get req s0).2
        (Event.Get req (.stored pv)) extra Event.isPatch rfl findDisk_not_patch hx
    have hw : ∀ (p f : String) (err : Error),
        Event.WipeDisk p f (some err) ∈ Event.Get req (.stored pv) ::
          (scanTargetWWNs r.FcUtils fc.Lun fc.TargetWWNs (r.client.Get req s0).2).2.1 ++
            tail → Event.WipeDisk p f (some err) ∈ tail := by
      intro p f err h
      rcases mem_pass_trace _ _ _ _ _ _ _ h with h | h | h
      · cases h
      · simp [Event.isFindDisk] at h
      · exact h
    have fin : ∀ (pre post rest : List Event) (e g : Event),
        tail = [Event.OpenFile dev none, Event.Close dev none,
          Event.WipeDisk dev fc.FSType none] ++ g :: rest →
        g.isPatch = true →
        Event.Get req (.stored pv) ::
          (scanTargetWWNs r.FcUtils fc.Lun fc.TargetWWNs (r.client.Get req s0).2).2.1 ++
            tail = pre ++ e :: post →
        e.isPatch = true → (∀ x ∈ pre, x.isPatch = false) →
        (∃ pv, (r.client.Get req s0).1 = .stored pv ∧ pv.Status.Phase = VolumeReleased) ∧
        ∃ before p f, pre = before ++ [Event.WipeDisk p f none] := by
      intro pre post rest e g ht hg h he hpre
      refine ⟨⟨pv, hget, hphase⟩, ?_⟩
      have h2 : (Event.Get req (.stored pv) ::
          (scanTargetWWNs r.FcUtils fc.Lun fc.TargetWWNs (r.client.Get req s0).2).2.1 ++
          [Event.OpenFile dev none, Event.Close dev none,
            Event.WipeDisk dev fc.FSType none]) ++ g :: rest = pre ++ e :: post := by
        rw [← h, ht]; simp
      have h3 := first_split_unique Event.isPatch _ rest pre post e g
        (hcl _ (by simp [Event.isPatch])) hg hpre he h2
      exact ⟨Event.Get req (.stored pv) ::
          (scanTargetWWNs r.FcUtils fc.Lun fc.TargetWWNs (r.client.Get req s0).2).2.1 ++
          [Event.OpenFile dev none, Event.Close dev none], dev, fc.FSType,
        by rw [h3.1]; simp⟩
    rcases htail with ⟨x, rfl, rfl⟩ | ⟨x, rfl, rfl⟩ | ⟨_, rfl, rfl⟩ | ⟨x, _, rfl, rfl⟩ |
      ⟨x, _, ht, rfl⟩ | ⟨x, y, _, ht, rfl⟩ | ⟨x, y, _, ht, rfl⟩
    · refine ⟨fun pre post e h he _ => ?_, fun p f err h => ?_⟩
      · exact (no_such_event Event.isPatch _ pre post e
          (hcl _ (by simp [Event.isPatch])) h he).elim
      · have := hw p f err h
        simp at this
    · refine ⟨fun pre post e h he _ => ?_, fun p f err h => ?_⟩
      · exact (no_such_event Event.isPatch _ pre post e
          (hcl _ (by simp [Event.isPatch])) h he).elim
      · have := hw p f err h
        simp at this
    · refine ⟨fun pre post e h he _ => ?_, fun p f err h => ?_⟩
      · exact (no_such_event Event.isPatch _ pre post e
          (hcl _ (by simp [Event.isPatch])) h he).elim
      · have := hw p f err h
        simp at this
    · refine ⟨fun pre post e h he _ => ?_, fun p f err h => ?_⟩
      · exact (no_such_event Event.isPatch _ pre post e
          (hcl _ (by simp [Event.isPatch])) h he).elim
      · exact ⟨hcl _ (by simp [Event.isPatch]), rfl⟩
    · refine ⟨fun pre post e h he hpre => ?_, fun p f err h => ?_⟩
      · exact fin pre post [] e (Event.Patch (clearClaim pv) pv (.failed x))
          (by rw [ht]; simp) rfl h he hpre
      · have := hw p f err h
        rw [ht] at this
        simp at this
    · refine ⟨fun pre post e h he hpre => ?_, fun p f err h => ?_⟩
      · exact fin pre post [Event.StatusPatch (markAvailable x) x (.failed y)] e
          (Event.Patch (clearClaim pv) pv (.stored x)) (by rw [ht]; simp) rfl h he hpre
      · have := hw p f err h
        rw [ht] at this
        simp at this
    · refine ⟨fun pre post e h he hpre => ?_, fun p f err h => ?_⟩
      · exact fin pre post [Event.StatusPatch (markAvailable x) x (.stored y)] e
          (Event.Patch (clearClaim pv) pv (.stored x)) (by rw [ht]; simp) rfl h he hpre
      · have := hw p f err h
        rw [ht] at this
        simp at this

/-- The result for a denylisted device, by the answers of the exclusive open and close. -/
theorem pass_denied_parked {σ : Type} (r : PersistentVolumeReconciler σ)
    (host : HostDevices σ) (req : String) (s0 : σ) (pv : PersistentVolume)
    (fc : FCVolumeSource) (device : String)
    (hget : (r.client.Get req s0).1 = .stored pv)
    (hphase : pv.Status.Phase = VolumeReleased) (hfc : pv.Spec.FC = some fc)
    (hscan : (scanTargetWWNs r.FcUtils fc.Lun fc.TargetWWNs (r.client.Get req s0).2).1
      = some device)
    (hne : device ≠ "") (hden : device ∈ r.DeniedDevices) :
    ((host.OpenFile device
        (scanTargetWWNs r.FcUtils fc.Lun fc.TargetWWNs (r.client.Get req s0).2).2.2).1 = none →
      (host.Close device (host.OpenFile device
        (scanTargetWWNs r.FcUtils fc.Lun fc.TargetWWNs (r.client.Get req s0).2).2.2).2).1
        = none →
      (Reconcile r host req s0).outcome = .returned ⟨true, 60 * Hour⟩ none) ∧
    ((host.OpenFile device
        (scanTargetWWNs r.FcUtils fc.Lun fc.TargetWWNs (r.client.Get req s0).2).2.2).1 ≠ none ∨
      (host.Close device (host.OpenFile device
        (scanTargetWWNs r.FcUtils fc.Lun fc.TargetWWNs (r.client.Get req s0).2).2.2).2).1
        ≠ none →
      (Reconcile r host req s0).outcome = .returned ⟨true, 60 * Second⟩ none) := by
  constructor
  · intro hopen hclose
    unfold Reconcile
    simp [hget, hphase, hfc, hscan, hne, hopen, hclose, hden]
  · intro hfail
    cases hopen : (host.OpenFile device
        (scanTargetWWNs r.FcUtils fc.Lun fc.TargetWWNs (r.client.Get req s0).2).2.2).1 with
    | some e =>
      unfold Reconcile
      simp [hget, hphase, hfc, hscan, hne, hopen]
    | none =>
      cases hclose : (host.Close device (host.OpenFile device
        (scanTargetWWNs r.FcUtils fc.Lun fc.TargetWWNs (r.client.Get req s0).2).2.2).2).1 with
      | some e =>
        unfold Reconcile
        simp [hget, hphase, hfc, hscan, hne, hopen, hclose]
      | none =>
        rcases hfail with h | h
        · exact absurd hopen h
        · exact absurd hclose h

theorem itoa_three : Itoa 3 = "3" := by decide

/-- With the test double and LUN 3, the loop finds `/dev/TheDisk` when `wwnB` is listed. -/
theorem stub_scan {σ : Type} (ws : List String) (s : σ) (hw : "wwnB" ∈ ws) :
    (scanTargetWWNs (stub : FCUtil σ) (some 3) ws s).1 = some "/dev/TheDisk" ∧
    (scanTargetWWNs (stub : FCUtil σ) (some 3) ws s).2.2 = s := by
  induction ws with
  | nil => simp at hw
  | cons w ws ih =>
    by_cases hwb : w = "wwnB"
    · subst hwb
      simp [scanTargetWWNs, stub, itoa_three]
    · have hin : "wwnB" ∈ ws := by
        simp only [List.mem_cons] at hw
        rcases hw with h | h
        · exact absurd h.symm hwb
        · exact h
      have hfd : (stub : FCUtil σ).FindDisk w (Itoa 3) s = (("", ""), s) := by
        simp [stub, hwb]
      simp only [scanTargetWWNs, hfd]
      simpa using ih hin

/-- A non-empty device selected by the loop is the aggregate path of one of its calls. -/
theorem scan_device_found {σ : Type} (fu : FCUtil σ) (lun : Option Int) (ws : List String)
    (s : σ) (dev : String) (hscan : (scanTargetWWNs fu lun ws s).1 = some dev)
    (hne : dev ≠ "") : ∃ w l d, Event.FindDisk w l d dev ∈ (scanTargetWWNs fu lun ws s).2.1 := by
  induction ws generalizing s with
  | nil =>
    simp [scanTargetWWNs] at hscan
    exact absurd hscan.symm hne
  | cons w ws ih =>
    cases lun with
    | none => simp [scanTargetWWNs] at hscan
    | some l =>
      simp only [scanTargetWWNs] at hscan ⊢
      split at hscan
      · next hdm =>
        rw [if_pos hdm]
        simp only [Option.some.injEq] at hscan
        exact ⟨w, Itoa l, (fu.FindDisk w (Itoa l) s).1.1, by rw [← hscan]; simp⟩
      · next hdm =>
        rw [if_neg hdm]
        obtain ⟨w1, l1, d1, h1⟩ := ih _ hscan
        exact ⟨w1, l1, d1, by simp [h1]⟩

/-- The device opened or wiped in a pass is an aggregate path returned by `FindDisk`; a
pass whose calls all returned an empty aggregate path touches no device. -/
theorem pass_aggregate_only {σ : Type} (r : PersistentVolumeReconciler σ) (req : String)
    (s0 : σ) (tr : List Event) (out : Outcome) (hp : Pass r req s0 tr out) :
    (∀ name : String,
      ((∃ err, Event.OpenFile name err ∈ tr) ∨ (∃ f err, Event.WipeDisk name f err ∈ tr)) →
      name ≠ "" ∧ ∃ w l d, Event.FindDisk w l d name ∈ tr) ∧
    (∀ (pv : PersistentVolume) (fc : FCVolumeSource) (l : Int),
      (r.client.Get req s0).1 = .stored pv → pv.Status.Phase = VolumeReleased →
      pv.Spec.FC = some fc → fc.Lun = some l →
      (∀ w l d m, Event.FindDisk w l d m ∈ tr → m = "") →
      (∀ x ∈ tr, x.isOpenFile = false ∧ x.isWipeDisk = false ∧ x.isPatch = false) ∧
      out = .returned ⟨true, 60 * Second⟩ none) := by
  have hnone : ∀ (g : Event) (fu : FCUtil σ) (lun : Option Int) (ws : List String) (s : σ)
      (name : String), g.isOpenFile = false → g.isWipeDisk = false →
      ((∃ err, Event.OpenFile name err ∈ g :: (scanTargetWWNs fu lun ws s).2.1) ∨
        (∃ f err, Event.WipeDisk name f err ∈ g :: (scanTargetWWNs fu lun ws s).2.1)) →
      False := by
    intro g fu lun ws s name hg1 hg2 h
    rcases h with ⟨err, h⟩ | ⟨f, err, h⟩
    · simp only [List.mem_cons] at h
      rcases h with h | h
      · rw [← h] at hg1; simp [Event.isOpenFile] at hg1
      · have := scan_events_findDisk _ _ _ _ _ h
        simp [Event.isFindDisk] at this
    · simp only [List.mem_cons] at h
      rcases h with h | h
      · rw [← h] at hg2; simp [Event.isWipeDisk] at hg2
      · have := scan_events_findDisk _ _ _ _ _ h
        simp [Event.isFindDisk] at this
  cases hp with
  | getFailed err hget =>
    refine ⟨fun name h => ?_, fun pv fc l hg _ _ _ _ => ?_⟩
    · simp at h
    · rw [hget] at hg; cases hg
  | ignored pv1 hget hi =>
    refine ⟨fun name h => ?_, fun pv fc l hg hph hfc _ _ => ?_⟩
    · simp at h
    · rw [hget] at hg
      injection hg with h1
      subst h1
      rcases hi with hi | hi
      · exact absurd hph hi
      · rw [hfc] at hi; cases hi
  | nilLun pv1 fc1 hget hphase hfc hscan =>
    refine ⟨fun name h => (hnone (Event.Get req (.stored pv1)) _ _ _ _ name rfl rfl h).elim,
      fun pv fc l hg hph hfc2 hlun _ => ?_⟩
    rw [hget] at hg
    injection hg with h1
    subst h1
    rw [hfc] at hfc2
    injection hfc2 with h2
    subst h2
    rw [hlun] at hscan
    rcases scan_spec r.FcUtils l fc1.TargetWWNs (r.client.Get req s0).2 with
      ⟨_, _, _, _, _, _, _, _, _, _, hdev⟩ | ⟨_, hdev⟩
    · rw [hdev] at hscan; cases hscan
    · rw [hdev] at hscan; cases hscan
  | notFound pv1 fc1 hget hphase hfc hscan =>
    refine ⟨fun name h => (hnone (Event.Get req (.stored pv1)) _ _ _ _ name rfl rfl h).elim,
      fun pv fc l hg hph hfc2 hlun _ => ⟨?_, rfl⟩⟩
    intro x hx
    simp only [List.mem_cons] at hx
    rcases hx with rfl | hx
    · exact ⟨rfl, rfl, rfl⟩
    · exact findDisk_not_other (scan_events_findDisk _ _ _ _ x hx)
  | found pv1 fc1 dev tail out hget hphase hfc hscan hne htail =>
    obtain ⟨w, l1, d, hfd⟩ := scan_device_found _ _ _ _ dev hscan hne
    have hfd2 : Event.FindDisk w l1 d dev ∈ Event.Get req (.stored pv1) ::
        (scanTargetWWNs r.FcUtils fc1.Lun fc1.TargetWWNs (r.client.Get req s0).2).2.1 ++
          tail := by
      simp [hfd]
    refine ⟨fun name h => ?_, fun pv fc l hg hph hfc2 hlun hall => ?_⟩
    · have hname : name = dev := by
        rcases h with ⟨err, h⟩ | ⟨f, err, h⟩
        · rcases mem_pass_trace _ _ _ _ _ _ _ h with h | h | h
          · cases h
          · simp [Event.isFindDisk] at h
          · rcases htail with ⟨x, rfl, _⟩ | ⟨x, rfl, _⟩ | ⟨_, rfl, _⟩ | ⟨x, _, rfl, _⟩ |
              ⟨x, _, rfl, _⟩ | ⟨x, y, _, rfl, _⟩ | ⟨x, y, _, rfl, _⟩ <;>
            · simp at h
              exact h.1
        · rcases mem_pass_trace _ _ _ _ _ _ _ h with h | h | h
          · cases h
          · simp [Event.isFindDisk] at h
          · rcases htail with ⟨x, rfl, _⟩ | ⟨x, rfl, _⟩ | ⟨_, rfl, _⟩ | ⟨x, _, rfl, _⟩ |
              ⟨x, _, rfl, _⟩ | ⟨x, y, _, rfl, _⟩ | ⟨x, y, _, rfl, _⟩ <;>
            · simp at h
              try exact h.1
      rw [hname]
      exact ⟨hne, w, l1, d, hfd2⟩
    · exact absurd (hall w l1 d dev hfd2) hne

/-- The test double leaves the world as it is when it wipes `/dev/TheDisk` as `ext4`. -/
theorem stub_wipe {σ : Type} (s : σ) :
    (stub : FCUtil σ).WipeDisk "/dev/TheDisk" "ext4" s = (none, s) := by
  simp [stub]

/-- The pass over a Released FC resource with the test double, when the exclusive open and
the close of `/dev/TheDisk` and the two patches succeed in the worlds of the pass, with
`/dev/TheDisk` off the denylist. -/
theorem stub_pass {σ : Type} (client : Client σ) (denied : List String)
    (host : HostDevices σ) (req : String) (s0 : σ) (pv pv2 pv4 : PersistentVolume)
    (fc : FCVolumeSource)
    (hget : (client.Get req s0).1 = .stored pv)
    (hphase : pv.Status.Phase = VolumeReleased) (hfc : pv.Spec.FC = some fc)
    (hwwn : "wwnB" ∈ fc.TargetWWNs) (hlun : fc.Lun = some 3) (hfs : fc.FSType = "ext4")
    (hopen : (host.OpenFile "/dev/TheDisk" (client.Get req s0).2).1 = none)
    (hclose : (host.Close "/dev/TheDisk"
      (host.OpenFile "/dev/TheDisk" (client.Get req s0).2).2).1 = none)
    (hden : "/dev/TheDisk" ∉ denied)
    (hpatch : (client.Patch (clearClaim pv) pv
      (host.Close "/dev/TheDisk"
        (host.OpenFile "/dev/TheDisk" (client.Get req s0).2).2).2).1 = .stored pv2)
    (hstatus : (client.StatusPatch (markAvailable pv2) pv2
      (client.Patch (clearClaim pv) pv
        (host.Close "/dev/TheDisk"
          (host.OpenFile "/dev/TheDisk" (client.Get req s0).2).2).2).2).1 = .stored pv4) :
    (Reconcile ⟨client, stub, denied⟩ host req s0).outcome = .returned Result.empty none ∧
    ∃ before,
      (∀ x ∈ before, x.isWipeDisk = false ∧ x.isPatch = false) ∧
      (Reconcile ⟨client, stub, denied⟩ host req s0).trace = before ++
        [Event.OpenFile "/dev/TheDisk" none, Event.Close "/dev/TheDisk" none,
          Event.WipeDisk "/dev/TheDisk" "ext4" none,
          Event.Patch (clearClaim pv) pv (.stored pv2),
          Event.StatusPatch (markAvailable pv2) pv2 (.stored pv4)] := by
  have hsc := stub_scan fc.TargetWWNs (client.Get req s0).2 hwwn
  have hcc : clearClaim pv = ⟨pv.Name, ⟨some fc, none⟩, pv.Status⟩ := by
    simp [clearClaim, hfc]
  have hma : markAvailable pv2 =
      ⟨pv2.Name, pv2.Spec, ⟨VolumeAvailable, "Wiped by operator", ""⟩⟩ := rfl
  rw [hcc] at hpatch hstatus
  rw [hma] at hstatus
  have hne : ¬ ("/dev/TheDisk" = "") := by decide
  have key : (Reconcile ⟨client, stub, denied⟩ host req s0).outcome
        = .returned Result.empty none ∧
      (Reconcile ⟨client, stub, denied⟩ host req s0).trace =
        Event.Get req (.stored pv) ::
          (scanTargetWWNs stub (some 3) fc.TargetWWNs (client.Get req s0).2).2.1 ++
        [Event.OpenFile "/dev/TheDisk" none, Event.Close "/dev/TheDisk" none,
          Event.WipeDisk "/dev/TheDisk" "ext4" none,
          Event.Patch (clearClaim pv) pv (.stored pv2),
          Event.StatusPatch (markAvailable pv2) pv2 (.stored pv4)] := by
    rw [hcc, hma]
    unfold Reconcile
    simp only [hget, hphase, hfc, hlun, hsc.1, hsc.2, hopen, hclose, hfs, stub_wipe, hden,
      hne, hpatch, hstatus, if_true, if_false]
    constructor <;> trivial
  refine ⟨key.1, _, ?_, key.2⟩
  intro x hx
  simp only [List.mem_cons] at hx
  rcases hx with rfl | hx
  · exact ⟨rfl, rfl⟩
  · exact (findDisk_not_other (scan_events_findDisk _ _ _ _ x hx)).2

/-- The recorded calls of a list are `FindDisk` events. -/
theorem answeredCalls_findDisk {σ : Type} (fu : FCUtil σ) (lun : String) (ws : List String)
    (s : σ) : ∀ e ∈ answeredCalls fu lun ws s, e.isFindDisk = true := by
  induction ws generalizing s with
  | nil => simp [answeredCalls]
  | cons w ws ih =>
    intro e he
    simp only [answeredCalls, List.mem_cons] at he
    rcases he with rfl | he
    · rfl
    · exact ih _ e he

/-- When the resolver is quiet for every WWN, the loop asks each of them, in order, in the
world the call before left, and selects the empty device. -/
theorem scan_all_quiet {σ : Type} (fu : FCUtil σ) (l : Int) (ws : List String) (s : σ)
    (hq : allQuiet fu (Itoa l) ws s = true) :
    scanTargetWWNs fu (some l) ws s =
      (some "", answeredCalls fu (Itoa l) ws s, worldAfter fu (Itoa l) ws s) := by
  induction ws generalizing s with
  | nil => rfl
  | cons w ws ih =>
    simp only [allQuiet, Bool.and_eq_true, decide_eq_true_eq] at hq
    simp only [scanTargetWWNs, answeredCalls, worldAfter, hq.1, ih _ hq.2]
    simp

/-- When the resolver is quiet for the WWNs of `before` and answers a non-empty aggregate
path for the next WWN, the loop asks exactly these, in order, and selects that path. -/
theorem scan_first_found {σ : Type} (fu : FCUtil σ) (l : Int)
    (before : List String) (wwn : String) (after : List String) (s : σ)
    (hq : allQuiet fu (Itoa l) before s = true)
    (hdm : (fu.FindDisk wwn (Itoa l) (worldAfter fu (Itoa l) before s)).1.2 ≠ "") :
    scanTargetWWNs fu (some l) (before ++ wwn :: after) s =
      (some (fu.FindDisk wwn (Itoa l) (worldAfter fu (Itoa l) before s)).1.2,
        answeredCalls fu (Itoa l) (before ++ [wwn]) s,
        (fu.FindDisk wwn (Itoa l) (worldAfter fu (Itoa l) before s)).2) := by
  induction before generalizing s with
  | nil =>
    simp only [worldAfter] at hdm
    simp only [List.nil_append, scanTargetWWNs, answeredCalls, worldAfter]
    rw [if_pos hdm]
  | cons w ws ih =>
    simp only [allQuiet, Bool.and_eq_true, decide_eq_true_eq] at hq
    simp only [worldAfter] at hdm
    have h := ih _ hq.2 hdm
    simp only [List.cons_append, scanTargetWWNs, answeredCalls, worldAfter, hq.1]
    simp [h]

/-- The resolver is quiet for every WWN, or there is a first WWN for which it is not. -/
theorem quiet_or_first_found {σ : Type} (fu : FCUtil σ) (lun : String) (ws : List String)
    (s : σ) :
    (∃ before wwn after, ws = before ++ wwn :: after ∧ allQuiet fu lun before s = true ∧
      (fu.FindDisk wwn lun (worldAfter fu lun before s)).1.2 ≠ "") ∨
    allQuiet fu lun ws s = true := by
  induction ws generalizing s with
  | nil => right; rfl
  | cons w ws ih =>
    by_cases h : (fu.FindDisk w lun s).1.2 = ""
    · rcases ih (fu.FindDisk w lun s).2 with ⟨before, wwn, after, hws, hq, hdm⟩ | hq
      · left
        exact ⟨w :: before, wwn, after, by simp [hws], by simp [allQuiet, h, hq],
          by simpa [worldAfter] using hdm⟩
      · right
        simp [allQuiet, h, hq]
    · left
      exact ⟨[], w, ws, rfl, rfl, by simpa [worldAfter] using h⟩

/-- What `Reconcile` does after the loop found a device: the next call is the exclusive
open of that device, in the world the loop left, and no `FindDisk` call follows. -/
theorem reconcile_after_found {σ : Type} (r : PersistentVolumeReconciler σ)
    (host : HostDevices σ) (req : String) (s0 : σ) (pv : PersistentVolume)
    (fc : FCVolumeSource) (device : String) (calls : List Event) (s1 : σ)
    (hget : (r.client.Get req s0).1 = .stored pv)
    (hphase : pv.Status.Phase = VolumeReleased) (hfc : pv.Spec.FC = some fc)
    (hscan : scanTargetWWNs r.FcUtils fc.Lun fc.TargetWWNs (r.client.Get req s0).2
      = (some device, calls, s1))
    (hne : device ≠ "") :
    ∃ rest, (Reconcile r host req s0).trace = Event.Get req (.stored pv) :: calls ++
        Event.OpenFile device (host.OpenFile device s1).1 :: rest ∧
      ∀ x ∈ rest, x.isFindDisk = false := by
  unfold Reconcile
  simp only [hget, hphase, hfc, hscan, hne, if_true, if_false]
  split
  · exact ⟨[], rfl, by simp⟩
  · split
    · exact ⟨_, rfl, by simp [Event.isFindDisk]⟩
    · split
      · exact ⟨_, rfl, by simp [Event.isFindDisk]⟩
      · split
        · exact ⟨_, rfl, by simp [Event.isFindDisk]⟩
        · split
          · exact ⟨_, rfl, by simp [Event.isFindDisk]⟩
          · split
            · exact ⟨_, rfl, by simp [Event.isFindDisk]⟩
            · exact ⟨_, rfl, by simp [Event.isFindDisk]⟩

/-- What `Reconcile` does after the loop found nothing. -/
theorem reconcile_after_quiet {σ : Type} (r : PersistentVolumeReconciler σ)
    (host : HostDevices σ) (req : String) (s0 : σ) (pv : PersistentVolume)
    (fc : FCVolumeSource) (calls : List Event) (s1 : σ)
    (hget : (r.client.Get req s0).1 = .stored pv)
    (hphase : pv.Status.Phase = VolumeReleased) (hfc : pv.Spec.FC = some fc)
    (hscan : scanTargetWWNs r.FcUtils fc.Lun fc.TargetWWNs (r.client.Get req s0).2
      = (some "", calls, s1)) :
    (Reconcile r host req s0).trace = Event.Get req (.stored pv) :: calls ∧
    (Reconcile r host req s0).outcome = .returned ⟨true, 60 * Second⟩ none := by
  unfold Reconcile
  simp [hget, hphase, hfc, hscan]

/-! ## The claims -/

/-- C4: for a fetched resource whose phase is not Released, and for a Released resource
without FC addressing, `Reconcile` makes no call besides the fetch (no `FindDisk`, no
exclusive open, no `WipeDisk`, no patch) and returns the empty result with a nil error. -/
theorem reconcile_ignored {σ : Type} (r : PersistentVolumeReconciler σ)
    (host : HostDevices σ) (req : String) (s0 : σ) (pv : PersistentVolume)
    (hget : (r.client.Get req s0).1 = .stored pv)
    (h : pv.Status.Phase ≠ VolumeReleased ∨
      (pv.Status.Phase = VolumeReleased ∧ pv.Spec.FC = none)) :
    (Reconcile r host req s0).trace = [Event.Get req (.stored pv)] ∧
    (∀ e ∈ (Reconcile r host req s0).trace,
      e.isFindDisk = false ∧ e.isOpenFile = false ∧ e.isWipeDisk = false ∧
        e.isPatch = false) ∧
    (Reconcile r host req s0).outcome = .returned Result.empty none := by
  have key : (Reconcile r host req s0).trace = [Event.Get req (.stored pv)] ∧
      (Reconcile r host req s0).outcome = .returned Result.empty none := by
    unfold Reconcile
    rcases h with h | ⟨h1, h2⟩
    · simp [hget, h]
    · simp [hget, h1, h2]
  refine ⟨key.1, ?_, key.2⟩
  rw [key.1]
  intro e he
  simp only [List.mem_singleton] at he
  subst he
  simp [Event.isFindDisk, Event.isOpenFile, Event.isWipeDisk, Event.isPatch]

/-- Witness of C4: the resource of the controller test, in phase Pending, is ignored, and so
is a Released resource without FC addressing. -/
theorem reconcile_ignored_witness :
    (Reconcile (testReconciler "Pending" []) idleHost "test-resource" ()).outcome
        = .returned Result.empty none ∧
    (Reconcile ⟨storeOf (testPV VolumeReleased none), stub, []⟩ idleHost "test-resource"
        ()).trace = [Event.Get "test-resource" (.stored (testPV VolumeReleased none))] :=
  ⟨(reconcile_ignored (testReconciler "Pending" []) idleHost "test-resource" ()
      (testPV "Pending" (some testFC)) rfl (Or.inl (by decide))).2.2,
   (reconcile_ignored ⟨storeOf (testPV VolumeReleased none), stub, []⟩ idleHost
      "test-resource" () (testPV VolumeReleased none) rfl (Or.inr ⟨rfl, rfl⟩)).1⟩

/-- C1: if the device path that `Reconcile` selects is an element of `DeniedDevices`
(exact string equality), then no `WipeDisk` call is made in that pass, for every resource,
denylist, resolver, wiper and host, whether the exclusive open succeeds or fails. -/
theorem denied_device_never_wiped {σ : Type} (r : PersistentVolumeReconciler σ)
    (host : HostDevices σ) (req : String) (s0 : σ) (device : String)
    (hsel : selectedDevice r req s0 = some device) (hden : device ∈ r.DeniedDevices) :
    ∀ e ∈ (Reconcile r host req s0).trace, e.isWipeDisk = false :=
  fun e he => (pass_denied_clean r req s0 _ _ (reconcile_pass r host req s0) device hsel hden
    e he).1

/-- Witness of C1: the device of the test double is on the denylist; it is not wiped on
an idle host and not on a busy host. -/
theorem denied_device_never_wiped_witness :
    (∀ e ∈ (Reconcile (testReconciler VolumeReleased ["/dev/TheDisk"]) idleHost
        "test-resource" ()).trace, e.isWipeDisk = false) ∧
    (∀ e ∈ (Reconcile (testReconciler VolumeReleased ["/dev/TheDisk"]) busyHost
        "test-resource" ()).trace, e.isWipeDisk = false) :=
  ⟨denied_device_never_wiped (testReconciler VolumeReleased ["/dev/TheDisk"]) idleHost
      "test-resource" () "/dev/TheDisk" (by decide) (by decide),
   denied_device_never_wiped (testReconciler VolumeReleased ["/dev/TheDisk"]) busyHost
      "test-resource" () "/dev/TheDisk" (by decide) (by decide)⟩

/-- C2: for a Released FC resource whose device is resolved, if the exclusive write-open
of the device fails, `Reconcile` stops after the open: no `WipeDisk`, no patch, result
requeue-after 60 seconds with a nil error. And in every pass a `WipeDisk` call comes
directly after a successful exclusive open and a successful close of the same device. -/
theorem busy_device_not_wiped {σ : Type} (r : PersistentVolumeReconciler σ)
    (host : HostDevices σ) (req : String) (s0 : σ) :
    (∀ (pv : PersistentVolume) (fc : FCVolumeSource) (device : String) (err : Error),
      (r.client.Get req s0).1 = .stored pv → pv.Status.Phase = VolumeReleased →
      pv.Spec.FC = some fc →
      (scanTargetWWNs r.FcUtils fc.Lun fc.TargetWWNs (r.client.Get req s0).2).1
        = some device →
      device ≠ "" →
      (host.OpenFile device
        (scanTargetWWNs r.FcUtils fc.Lun fc.TargetWWNs (r.client.Get req s0).2).2.2).1
        = some err →
      (Reconcile r host req s0).trace =
        Event.Get req (.stored pv) ::
          (scanTargetWWNs r.FcUtils fc.Lun fc.TargetWWNs (r.client.Get req s0).2).2.1 ++
          [Event.OpenFile device (some err)] ∧
      (∀ e ∈ (Reconcile r host req s0).trace, e.isWipeDisk = false ∧ e.isPatch = false) ∧
      (Reconcile r host req s0).outcome = .returned ⟨true, 60 * Second⟩ none) ∧
    (∀ (pre post : List Event) (p f : String) (err : Option Error),
      (Reconcile r host req s0).trace = pre ++ Event.WipeDisk p f err :: post →
      ∃ before, pre = before ++ [Event.OpenFile p none, Event.Close p none]) := by
  constructor
  · intro pv fc device err hget hphase hfc hscan hne hopen
    have key : (Reconcile r host req s0).trace =
        Event.Get req (.stored pv) ::
          (scanTargetWWNs r.FcUtils fc.Lun fc.TargetWWNs (r.client.Get req s0).2).2.1 ++
          [Event.OpenFile device (some err)] ∧
        (Reconcile r host req s0).outcome = .returned ⟨true, 60 * Second⟩ none := by
      unfold Reconcile
      simp [hget, hphase, hfc, hscan, hne, hopen]
    refine ⟨key.1, ?_, key.2⟩
    rw [key.1]
    intro e he
    exact ⟨pass_head_clean r.FcUtils fc.Lun fc.TargetWWNs (r.client.Get req s0).2
        (Event.Get req (.stored pv)) [Event.OpenFile device (some err)] Event.isWipeDisk rfl
        findDisk_not_wipe (by simp [Event.isWipeDisk]) e he,
      pass_head_clean r.FcUtils fc.Lun fc.TargetWWNs (r.client.Get req s0).2
        (Event.Get req (.stored pv)) [Event.OpenFile device (some err)] Event.isPatch rfl
        findDisk_not_patch (by simp [Event.isPatch]) e he⟩
  · intro pre post p f err h
    have hp := reconcile_pass r host req s0
    rw [h] at hp
    generalize (Reconcile r host req s0).outcome = out at hp
    have hmem : ∀ tr : List Event, tr = pre ++ Event.WipeDisk p f err :: post →
        (∀ x ∈ tr, x.isWipeDisk = false) → False := by
      intro tr htr hall
      have := hall (Event.WipeDisk p f err) (by rw [htr]; simp)
      simp [Event.isWipeDisk] at this
    generalize htr : pre ++ Event.WipeDisk p f err :: post = tr at hp
    cases hp with
    | getFailed e hget => exact (hmem _ htr.symm (by simp [Event.isWipeDisk])).elim
    | ignored pv hget hi => exact (hmem _ htr.symm (by simp [Event.isWipeDisk])).elim
    | nilLun pv fc hget hphase hfc hscan =>
      exact (hmem _ htr.symm (by
        have := pass_head_clean r.FcUtils fc.Lun fc.TargetWWNs (r.client.Get req s0).2
          (Event.Get req (.stored pv)) [] Event.isWipeDisk rfl findDisk_not_wipe (by simp)
        simpa using this)).elim
    | notFound pv fc hget hphase hfc hscan =>
      exact (hmem _ htr.symm (by
        have := pass_head_clean r.FcUtils fc.Lun fc.TargetWWNs (r.client.Get req s0).2
          (Event.Get req (.stored pv)) [] Event.isWipeDisk rfl findDisk_not_wipe (by simp)
        simpa using this)).elim
    | found pv fc dev tail out hget hphase hfc hscan hne htail =>
      have hhead := pass_head_clean r.FcUtils fc.Lun fc.TargetWWNs (r.client.Get req s0).2
        (Event.Get req (.stored pv)) [Event.OpenFile dev none, Event.Close dev none]
        Event.isWipeDisk rfl findDisk_not_wipe (by simp [Event.isWipeDisk])
      have fin : ∀ (w : Option Error) (rest : List Event),
          tail = [Event.OpenFile dev none, Event.Close dev none,
            Event.WipeDisk dev fc.FSType w] ++ rest →
          (∀ x ∈ rest, x.isWipeDisk = false) →
          ∃ before, pre = before ++ [Event.OpenFile p none, Event.Close p none] := by
        intro w rest ht hrest
        have h2 : (Event.Get req (.stored pv) ::
            (scanTargetWWNs r.FcUtils fc.Lun fc.TargetWWNs (r.client.Get req s0).2).2.1 ++
            [Event.OpenFile dev none, Event.Close dev none]) ++
            Event.WipeDisk dev fc.FSType w :: rest
            = pre ++ Event.WipeDisk p f err :: post := by
          rw [htr, ht]; simp
        have h3 := split_unique Event.isWipeDisk _ _ pre post (Event.WipeDisk p f err)
          (Event.WipeDisk dev fc.FSType w) hhead hrest rfl h2
        have hpd : p = dev := by
          have h4 := h3.2.1
          injection h4
        exact ⟨_, by rw [h3.1, hpd]⟩
      rcases htail with ⟨x, rfl, _⟩ | ⟨x, rfl, _⟩ | ⟨_, rfl, _⟩ | ⟨x, _, ht, _⟩ |
        ⟨x, _, ht, _⟩ | ⟨x, y, _, ht, _⟩ | ⟨x, y, _, ht, _⟩
      · exact (hmem _ htr.symm (pass_head_clean r.FcUtils fc.Lun fc.TargetWWNs
          (r.client.Get req s0).2 (Event.Get req (.stored pv)) _ Event.isWipeDisk rfl
          findDisk_not_wipe (by simp [Event.isWipeDisk]))).elim
      · exact (hmem _ htr.symm (pass_head_clean r.FcUtils fc.Lun fc.TargetWWNs
          (r.client.Get req s0).2 (Event.Get req (.stored pv)) _ Event.isWipeDisk rfl
          findDisk_not_wipe (by simp [Event.isWipeDisk]))).elim
      · exact (hmem _ htr.symm (pass_head_clean r.FcUtils fc.Lun fc.TargetWWNs
          (r.client.Get req s0).2 (Event.Get req (.stored pv)) _ Event.isWipeDisk rfl
          findDisk_not_wipe (by simp [Event.isWipeDisk]))).elim
      · exact fin (some x) [] (by rw [ht]; simp) (by simp)
      · exact fin none [Event.Patch (clearClaim pv) pv (.failed x)] (by rw [ht]; simp)
          (by simp [Event.isWipeDisk])
      · exact fin none [Event.Patch (clearClaim pv) pv (.stored x),
          Event.StatusPatch (markAvailable x) x (.failed y)] (by rw [ht]; simp)
          (by simp [Event.isWipeDisk])
      · exact fin none [Event.Patch (clearClaim pv) pv (.stored x),
          Event.StatusPatch (markAvailable x) x (.stored y)] (by rw [ht]; simp)
          (by simp [Event.isWipeDisk])

/-- Witness of C2: on a busy host the test resource is requeued after 60 seconds; on an
idle host the wipe of the pass comes directly after the open and the close. -/
theorem busy_device_not_wiped_witness :
    (Reconcile (testReconciler VolumeReleased []) busyHost "test-resource" ()).outcome
        = .returned ⟨true, 60 * Second⟩ none ∧
    (∃ before, [Event.Get "test-resource" (.stored (testPV VolumeReleased (some testFC))),
        Event.FindDisk "wwnA" "3" "" "", Event.FindDisk "wwnB" "3" "disk" "/dev/TheDisk",
        Event.OpenFile "/dev/TheDisk" none, Event.Close "/dev/TheDisk" none]
      = before ++ [Event.OpenFile "/dev/TheDisk" none, Event.Close "/dev/TheDisk" none]) :=
  ⟨((busy_device_not_wiped (testReconciler VolumeReleased []) busyHost "test-resource"
      ()).1 (testPV VolumeReleased (some testFC)) testFC "/dev/TheDisk"
      ⟨false, "device or resource busy"⟩ rfl rfl rfl (by decide) (by decide) rfl).2.2,
   (busy_device_not_wiped (testReconciler VolumeReleased []) idleHost "test-resource"
      ()).2 _
      [Event.Patch (clearClaim (testPV VolumeReleased (some testFC)))
          (testPV VolumeReleased (some testFC))
          (.stored (clearClaim (testPV VolumeReleased (some testFC)))),
        Event.StatusPatch (markAvailable (clearClaim (testPV VolumeReleased (some testFC))))
          (clearClaim (testPV VolumeReleased (some testFC)))
          (.stored (markAvailable (clearClaim (testPV VolumeReleased (some testFC)))))]
      "/dev/TheDisk" "ext4" none (by decide)⟩

/-- C3: in every pass, a patch (of the spec, clearing `ClaimRef`, or of the status, setting
Available) is issued only if the phase read at the start of the pass was Released, and the
call directly before the first patch of the pass is a `WipeDisk` call that returned success.
When a `WipeDisk` call returns an error, no patch is issued and the result is requeue-after
15 minutes with a nil error. -/
theorem patch_only_after_successful_wipe {σ : Type} (r : PersistentVolumeReconciler σ)
    (host : HostDevices σ) (req : String) (s0 : σ) :
    (∀ (pre post : List Event) (e : Event),
      (Reconcile r host req s0).trace = pre ++ e :: post → e.isPatch = true →
      (∀ x ∈ pre, x.isPatch = false) →
      (∃ pv, (r.client.Get req s0).1 = .stored pv ∧ pv.Status.Phase = VolumeReleased) ∧
      ∃ before p f, pre = before ++ [Event.WipeDisk p f none]) ∧
    (∀ (p f : String) (err : Error),
      Event.WipeDisk p f (some err) ∈ (Reconcile r host req s0).trace →
      (∀ x ∈ (Reconcile r host req s0).trace, x.isPatch = false) ∧
      (Reconcile r host req s0).outcome = .returned ⟨true, 15 * Minute⟩ none) :=
  pass_patch_after_wipe r req s0 _ _ (reconcile_pass r host req s0)

/-- Witness of C3: with a wiper that fails, the pass over the test resource is requeued
after 15 minutes without a patch. -/
theorem patch_only_after_successful_wipe_witness :
    (∀ x ∈ (Reconcile ⟨storeOf (testPV VolumeReleased (some testFC)), failingWiper, []⟩
        idleHost "test-resource" ()).trace, x.isPatch = false) ∧
    (Reconcile ⟨storeOf (testPV VolumeReleased (some testFC)), failingWiper, []⟩
        idleHost "test-resource" ()).outcome = .returned ⟨true, 15 * Minute⟩ none :=
  (patch_only_after_successful_wipe
    ⟨storeOf (testPV VolumeReleased (some testFC)), failingWiper, []⟩
    idleHost "test-resource" ()).2 "/dev/TheDisk" "ext4" ⟨false, "exit status 1"⟩ (by decide)

/-- C8: for a Released FC resource with WWN list `ws` and LUN `l`, `Reconcile` calls
`FindDisk(w, Itoa l)` for the WWNs in list order, each call in the world the call before
left, and records the resolver's own answers. If the resolver answers an empty aggregate
path for the WWNs of `before` and a non-empty one, `dm`, for the next WWN, then the calls of
the pass are exactly those for `before` and that WWN, no `FindDisk` call follows (none for
a later WWN), and the next call is the exclusive open of `dm`. If the resolver answers an
empty aggregate path for every WWN, then `FindDisk` is called once for every element of
`ws`, in order, nothing else is called (no `WipeDisk`, no patch), and the result is
requeue-after 60 seconds with a nil error. One of the two is always the case. -/
theorem scan_in_list_order {σ : Type} (r : PersistentVolumeReconciler σ)
    (host : HostDevices σ) (req : String) (s0 : σ) (pv : PersistentVolume)
    (fc : FCVolumeSource) (l : Int)
    (hget : (r.client.Get req s0).1 = .stored pv)
    (hphase : pv.Status.Phase = VolumeReleased) (hfc : pv.Spec.FC = some fc)
    (hlun : fc.Lun = some l) :
    (∀ (before : List String) (wwn : String) (after : List String),
      fc.TargetWWNs = before ++ wwn :: after →
      allQuiet r.FcUtils (Itoa l) before (r.client.Get req s0).2 = true →
      (r.FcUtils.FindDisk wwn (Itoa l)
        (worldAfter r.FcUtils (Itoa l) before (r.client.Get req s0).2)).1.2 ≠ "" →
      ∃ rest, (Reconcile r host req s0).trace =
          Event.Get req (.stored pv) ::
            answeredCalls r.FcUtils (Itoa l) (before ++ [wwn]) (r.client.Get req s0).2 ++
          Event.OpenFile
            (r.FcUtils.FindDisk wwn (Itoa l)
              (worldAfter r.FcUtils (Itoa l) before (r.client.Get req s0).2)).1.2
            (host.OpenFile
              (r.FcUtils.FindDisk wwn (Itoa l)
                (worldAfter r.FcUtils (Itoa l) before (r.client.Get req s0).2)).1.2
              (r.FcUtils.FindDisk wwn (Itoa l)
                (worldAfter r.FcUtils (Itoa l) before (r.client.Get req s0).2)).2).1 :: rest ∧
        ∀ x ∈ rest, x.isFindDisk = false) ∧
    (allQuiet r.FcUtils (Itoa l) fc.TargetWWNs (r.client.Get req s0).2 = true →
      (Reconcile r host req s0).trace = Event.Get req (.stored pv) ::
        answeredCalls r.FcUtils (Itoa l) fc.TargetWWNs (r.client.Get req s0).2 ∧
      (∀ x ∈ (Reconcile r host req s0).trace, x.isWipeDisk = false ∧ x.isPatch = false) ∧
      (Reconcile r host req s0).outcome = .returned ⟨true, 60 * Second⟩ none) ∧
    ((∃ before wwn after, fc.TargetWWNs = before ++ wwn :: after ∧
        allQuiet r.FcUtils (Itoa l) before (r.client.Get req s0).2 = true ∧
        (r.FcUtils.FindDisk wwn (Itoa l)
          (worldAfter r.FcUtils (Itoa l) before (r.client.Get req s0).2)).1.2 ≠ "") ∨
      allQuiet r.FcUtils (Itoa l) fc.TargetWWNs (r.client.Get req s0).2 = true) := by
  refine ⟨?_, ?_, quiet_or_first_found _ _ _ _⟩
  · intro before wwn after hws hq hdm
    have hscan := scan_first_found r.FcUtils l before wwn after (r.client.Get req s0).2 hq hdm
    rw [← hws, ← hlun] at hscan
    exact reconcile_after_found r host req s0 pv fc _ _ _ hget hphase hfc hscan hdm
  · intro hq
    have hscan := scan_all_quiet r.FcUtils l fc.TargetWWNs (r.client.Get req s0).2 hq
    rw [← hlun] at hscan
    have key := reconcile_after_quiet r host req s0 pv fc _ _ hget hphase hfc hscan
    refine ⟨key.1, ?_, key.2⟩
    rw [key.1]
    intro x hx
    simp only [List.mem_cons] at hx
    rcases hx with rfl | hx
    · exact ⟨rfl, rfl⟩
    · exact (findDisk_not_other (answeredCalls_findDisk _ _ _ _ x hx)).2

/-- Witness of C8: the pass over the test resource (WWNs `wwnA`, `wwnB`, LUN 3) with the
test double as resolver: `FindDisk` is asked for `wwnA`, which it does not know, then for
`wwnB`, and the device opened next is the aggregate path `/dev/TheDisk` it answers. -/
theorem scan_in_list_order_witness :
    ∃ rest, (Reconcile (testReconciler VolumeReleased []) idleHost "test-resource" ()).trace =
        Event.Get "test-resource" (.stored (testPV VolumeReleased (some testFC))) ::
          [Event.FindDisk "wwnA" "3" "" "", Event.FindDisk "wwnB" "3" "disk" "/dev/TheDisk"] ++
        Event.OpenFile "/dev/TheDisk" none :: rest ∧
      ∀ x ∈ rest, x.isFindDisk = false :=
  (scan_in_list_order (testReconciler VolumeReleased []) idleHost "test-resource" ()
    (testPV VolumeReleased (some testFC)) testFC 3 rfl rfl rfl rfl).1
    ["wwnA"] "wwnB" [] rfl (by decide) (by decide)

/-- C9, as stated, fails: the resolved device of the test resource is on the denylist, the
host is busy, and the pass is requeued after 60 seconds, not after 60 hours. -/
theorem denylisted_busy_device_counterexample :
    selectedDevice (testReconciler VolumeReleased ["/dev/TheDisk"]) "test-resource" ()
        = some "/dev/TheDisk" ∧
    "/dev/TheDisk" ∈ (testReconciler VolumeReleased ["/dev/TheDisk"]).DeniedDevices ∧
    (Reconcile (testReconciler VolumeReleased ["/dev/TheDisk"]) busyHost "test-resource"
        ()).outcome = .returned ⟨true, 60 * Second⟩ none ∧
    (Reconcile (testReconciler VolumeReleased ["/dev/TheDisk"]) busyHost "test-resource"
        ()).outcome ≠ .returned ⟨true, 60 * Hour⟩ none := by
  decide

/-- C9, amended: for a Released FC resource whose resolved device path is a denylist entry,
`Reconcile` issues no patch and does not wipe. If the exclusive open of the device and its
close succeed, the result is requeue-after 60 hours with a nil error; if the open or the
close fails, it is requeue-after 60 seconds with a nil error. 60 hours is longer than the
60 seconds of the not-found and busy outcomes. -/
theorem denylisted_device_parked {σ : Type} (r : PersistentVolumeReconciler σ)
    (host : HostDevices σ) (req : String) (s0 : σ) (pv : PersistentVolume)
    (fc : FCVolumeSource) (device : String)
    (hget : (r.client.Get req s0).1 = .stored pv)
    (hphase : pv.Status.Phase = VolumeReleased) (hfc : pv.Spec.FC = some fc)
    (hscan : (scanTargetWWNs r.FcUtils fc.Lun fc.TargetWWNs (r.client.Get req s0).2).1
      = some device)
    (hne : device ≠ "") (hden : device ∈ r.DeniedDevices) :
    (∀ e ∈ (Reconcile r host req s0).trace, e.isWipeDisk = false ∧ e.isPatch = false) ∧
    ((host.OpenFile device
        (scanTargetWWNs r.FcUtils fc.Lun fc.TargetWWNs (r.client.Get req s0).2).2.2).1 = none →
      (host.Close device (host.OpenFile device
        (scanTargetWWNs r.FcUtils fc.Lun fc.TargetWWNs (r.client.Get req s0).2).2.2).2).1
        = none →
      (Reconcile r host req s0).outcome = .returned ⟨true, 60 * Hour⟩ none) ∧
    ((host.OpenFile device
        (scanTargetWWNs r.FcUtils fc.Lun fc.TargetWWNs (r.client.Get req s0).2).2.2).1 ≠ none ∨
      (host.Close device (host.OpenFile device
        (scanTargetWWNs r.FcUtils fc.Lun fc.TargetWWNs (r.client.Get req s0).2).2.2).2).1
        ≠ none →
      (Reconcile r host req s0).outcome = .returned ⟨true, 60 * Second⟩ none) ∧
    60 * Second < 60 * Hour :=
  ⟨pass_denied_clean r req s0 _ _ (reconcile_pass r host req s0) device
      (by rw [selectedDevice_eq r req s0 pv fc hget hphase hfc, hscan]) hden,
   (pass_denied_parked r host req s0 pv fc device hget hphase hfc hscan hne hden).1,
   (pass_denied_parked r host req s0 pv fc device hget hphase hfc hscan hne hden).2,
   by decide⟩

/-- Witness of C9, amended: the denylisted device of the test resource on an idle host. -/
theorem denylisted_device_parked_witness :
    (Reconcile (testReconciler VolumeReleased ["/dev/TheDisk"]) idleHost "test-resource"
        ()).outcome = .returned ⟨true, 60 * Hour⟩ none :=
  (denylisted_device_parked (testReconciler VolumeReleased ["/dev/TheDisk"]) idleHost
    "test-resource" () (testPV VolumeReleased (some testFC)) testFC "/dev/TheDisk"
    rfl rfl rfl (by decide) (by decide) (by decide)).2.1 rfl rfl

/-- C5, as stated, fails: for the Released test resource (WWNs `wwnA`, `wwnB`, LUN 3,
`ext4`) with the stub resolver and the stub wiper over a store whose patches succeed, a host
on which the exclusive open fails gives requeue-after 60 seconds and no patch; and on an
idle host a denylist that holds `/dev/TheDisk` gives requeue-after 60 hours and no patch. -/
theorem stub_end_to_end_counterexample :
    (Reconcile (testReconciler VolumeReleased []) busyHost "test-resource" ()).outcome
        = .returned ⟨true, 60 * Second⟩ none ∧
    (∀ e ∈ (Reconcile (testReconciler VolumeReleased []) busyHost "test-resource" ()).trace,
        e.isPatch = false) ∧
    (Reconcile (testReconciler VolumeReleased ["/dev/TheDisk"]) idleHost "test-resource"
        ()).outcome = .returned ⟨true, 60 * Hour⟩ none ∧
    (∀ e ∈ (Reconcile (testReconciler VolumeReleased ["/dev/TheDisk"]) idleHost
        "test-resource" ()).trace, e.isPatch = false) := by
  decide

/-- C5, amended: for a resource with phase Released and FC addressing that contains WWN
`wwnB`, with LUN 3 and filesystem type `ext4`, the stub resolver and the stub wiper,
provided that in this pass the exclusive open and the close of `/dev/TheDisk` succeed,
`/dev/TheDisk` is not on the denylist, and the two patches of this pass succeed (the store
answers `pv2` to the first and `pv4` to the second): `Reconcile` wipes `/dev/TheDisk` as
`ext4`, patches the resource with `ClaimRef = nil`, patches the status with phase Available,
and returns the empty result (no requeue) with a nil error. The open, the close and the
patches are asked in the worlds the pass reaches; nothing is assumed about other worlds or
other objects. -/
theorem stub_end_to_end {σ : Type} (client : Client σ) (denied : List String)
    (host : HostDevices σ) (req : String) (s0 : σ) (pv pv2 pv4 : PersistentVolume)
    (fc : FCVolumeSource)
    (hget : (client.Get req s0).1 = .stored pv)
    (hphase : pv.Status.Phase = VolumeReleased) (hfc : pv.Spec.FC = some fc)
    (hwwn : "wwnB" ∈ fc.TargetWWNs) (hlun : fc.Lun = some 3) (hfs : fc.FSType = "ext4")
    (hopen : (host.OpenFile "/dev/TheDisk" (client.Get req s0).2).1 = none)
    (hclose : (host.Close "/dev/TheDisk"
      (host.OpenFile "/dev/TheDisk" (client.Get req s0).2).2).1 = none)
    (hden : "/dev/TheDisk" ∉ denied)
    (hpatch : (client.Patch (clearClaim pv) pv
      (host.Close "/dev/TheDisk"
        (host.OpenFile "/dev/TheDisk" (client.Get req s0).2).2).2).1 = .stored pv2)
    (hstatus : (client.StatusPatch (markAvailable pv2) pv2
      (client.Patch (clearClaim pv) pv
        (host.Close "/dev/TheDisk"
          (host.OpenFile "/dev/TheDisk" (client.Get req s0).2).2).2).2).1 = .stored pv4) :
    (Reconcile ⟨client, stub, denied⟩ host req s0).outcome = .returned Result.empty none ∧
    (∃ before,
      (∀ x ∈ before, x.isWipeDisk = false ∧ x.isPatch = false) ∧
      (Reconcile ⟨client, stub, denied⟩ host req s0).trace = before ++
        [Event.OpenFile "/dev/TheDisk" none, Event.Close "/dev/TheDisk" none,
          Event.WipeDisk "/dev/TheDisk" "ext4" none,
          Event.Patch (clearClaim pv) pv (.stored pv2),
          Event.StatusPatch (markAvailable pv2) pv2 (.stored pv4)]) ∧
    (clearClaim pv).Spec.ClaimRef = none ∧
    (markAvailable pv2).Status.Phase = VolumeAvailable :=
  ⟨(stub_pass client denied host req s0 pv pv2 pv4 fc hget hphase hfc hwwn hlun hfs hopen
      hclose hden hpatch hstatus).1,
   (stub_pass client denied host req s0 pv pv2 pv4 fc hget hphase hfc hwwn hlun hfs hopen
      hclose hden hpatch hstatus).2,
   rfl, rfl⟩

/-- Witness of C5, amended: a store that accepts the first patch only in world 0 and the
status patch only in world 1, and rejects every other write; the pass over the test
resource on a host that is idle in world 0 ends with the empty result. -/
theorem stub_end_to_end_witness :
    (Reconcile ⟨onceStore (testPV VolumeReleased (some testFC)), stub, []⟩ idleOnceHost
        "test-resource" 0).outcome = .returned Result.empty none :=
  (stub_end_to_end (onceStore (testPV VolumeReleased (some testFC))) [] idleOnceHost
    "test-resource" 0 (testPV VolumeReleased (some testFC))
    (clearClaim (testPV VolumeReleased (some testFC)))
    (markAvailable (clearClaim (testPV VolumeReleased (some testFC)))) testFC
    rfl rfl rfl (by decide) rfl rfl rfl rfl (by decide) rfl rfl).1

/-- C6, as stated, fails: on a host with one FC disk and no multipath device, `FindDisk`
returns the raw path `/hostdev/sdb` with an empty aggregate path; with a resolver that
answers so, `Reconcile` makes no call after `FindDisk` (the raw path is not opened) and
returns requeue-after 60 seconds, the not-found outcome. -/
theorem raw_path_not_used_counterexample :
    FindDisk plainHost "500a" "0" = .returned "/hostdev/sdb" "" ∧
    (Reconcile ⟨storeOf (testPV VolumeReleased (some ⟨["500a"], some 0, "ext4", false, []⟩)),
        rawOnlyFor500a, []⟩ idleHost "test-resource" ()).trace =
      [Event.Get "test-resource"
          (.stored (testPV VolumeReleased (some ⟨["500a"], some 0, "ext4", false, []⟩))),
        Event.FindDisk "500a" "0" "/hostdev/sdb" ""] ∧
    (Reconcile ⟨storeOf (testPV VolumeReleased (some ⟨["500a"], some 0, "ext4", false, []⟩)),
        rawOnlyFor500a, []⟩ idleHost "test-resource" ()).outcome
      = .returned ⟨true, 60 * Second⟩ none := by
  decide

/-- C6, amended: the device that `Reconcile` opens for the exclusivity probe and passes to
`WipeDisk` is always a non-empty aggregate path (second result) that a `FindDisk` call of the
same pass returned; the raw path (first result) is never used. For a Released FC resource
with a LUN, when every `FindDisk` call of the pass returned an empty aggregate path,
whatever the raw paths, `Reconcile` opens nothing, wipes nothing, patches nothing and
returns requeue-after 60 seconds with a nil error (device not found). -/
theorem device_is_aggregate_path {σ : Type} (r : PersistentVolumeReconciler σ)
    (host : HostDevices σ) (req : String) (s0 : σ) :
    (∀ name : String,
      ((∃ err, Event.OpenFile name err ∈ (Reconcile r host req s0).trace) ∨
        (∃ f err, Event.WipeDisk name f err ∈ (Reconcile r host req s0).trace)) →
      name ≠ "" ∧ ∃ w l d, Event.FindDisk w l d name ∈ (Reconcile r host req s0).trace) ∧
    (∀ (pv : PersistentVolume) (fc : FCVolumeSource) (l : Int),
      (r.client.Get req s0).1 = .stored pv → pv.Status.Phase = VolumeReleased →
      pv.Spec.FC = some fc → fc.Lun = some l →
      (∀ w l d m, Event.FindDisk w l d m ∈ (Reconcile r host req s0).trace → m = "") →
      (∀ x ∈ (Reconcile r host req s0).trace,
        x.isOpenFile = false ∧ x.isWipeDisk = false ∧ x.isPatch = false) ∧
      (Reconcile r host req s0).outcome = .returned ⟨true, 60 * Second⟩ none) :=
  pass_aggregate_only r req s0 _ _ (reconcile_pass r host req s0)

/-- Witness of C6, amended: the device opened in the pass over the test resource is the
aggregate path `/dev/TheDisk` of the test double, not its raw path `disk`. -/
theorem device_is_aggregate_path_witness :
    "/dev/TheDisk" ≠ "" ∧ ∃ w l d, Event.FindDisk w l d "/dev/TheDisk" ∈
      (Reconcile (testReconciler VolumeReleased []) idleHost "test-resource" ()).trace :=
  (device_is_aggregate_path (testReconciler VolumeReleased []) idleHost "test-resource"
    ()).1 "/dev/TheDisk" (Or.inl ⟨none, by decide⟩)

/-- C7 fails on the code: `FindDisk` puts `wwn` and `lun` into the regular expression
unescaped. The by-path directory of `plainHost` holds the single entry `fc-0x500a-lun-0`.
For `wwn = ".*"`, `lun = "0"` that entry has neither of the two literal shapes, and `FindDisk`
selects it all the same and returns its device. For `wwn = "("` the expression does not
compile and `FindDisk` panics. -/
theorem findDisk_pattern_not_literal :
    plainHost.ReadDir byPath = some ["fc-0x500a-lun-0"] ∧
    "fc-0x500a-lun-0" ≠ fcEntryName ".*" "0" ∧
    (∀ s : String, "fc-0x500a-lun-0" ≠ pciEntryName s ".*" "0") ∧
    FindDisk plainHost ".*" "0" = .returned "/hostdev/sdb" "" ∧
    FindDisk plainHost "(" "0" = .panicked := by
  refine ⟨by decide, by decide, ?_, by decide, by decide⟩
  intro s h
  have h2 := congrArg String.data h
  simp [pciEntryName] at h2

end VolumeRecycling
